import Mathlib

/-!
Verification of the core of the `tuulbelt` output-diffing utility and snapshot
store, as a shallow embedding of the Rust sources
`output-diffing-utility/src/lib.rs`, `output-diffing-utility/src/json.rs` and
`snapshot-comparison/src/lib.rs`.

Modelling conventions, used throughout:

* Rust `String`/`&str` and `Vec<u8>`/`&[u8]` are both modelled as `List Nat`
  (the UTF-8 byte sequence of the string).  All string operations the code
  performs on header lines, names, paths and hashes are ASCII-level and agree
  byte for byte with their `char`-level counterparts on valid UTF-8 input.
  `trim` is modelled as trimming of ASCII whitespace (the only whitespace that
  occurs in the files the code itself writes).
* Where the code iterates over `char`s of a string whose non-ASCII content
  matters (the content classifier), the byte list is first decoded with a
  faithful UTF-8 decoder (`utf8Decode`) into the list of Unicode scalar
  values, also represented as `Nat`s.
* Machine integers (`u64`, `usize`) are `Nat` with explicit `% 2^64` at the
  single wrapping operation (`wrapping_mul` in the FNV hash), and explicit
  `< 2^64` bounds where overflow of `parse` matters.
* `f64` JSON numbers are modelled as exact rationals (`Rat`).  The claims
  settled here do not depend on floating-point rounding; the comparison
  structure (`|a - b| > f64::EPSILON`) is kept.
* The file system is modelled as an association list from snapshot name to
  file bytes (`Store`).  Directory creation and raw I/O are modelled as
  always succeeding; `SystemTime::now()` is an explicit `now : Nat` argument.
  Error values carry no diagnostic message strings (these are presentation
  only); only the error constructor, which all callers match on, is kept.
* Loops are either translated by well-founded recursion on the consumed
  input, or given an explicit fuel argument that is (generously) larger than
  the number of iterations the Rust loop can perform on the given input.
* The iteration order of `std::collections::HashSet` (used by the structural
  differ for the union of object keys) is not deterministic in Rust.  It is
  modelled by an explicit ordering oracle `ord` applied to the insertion-order
  list of distinct keys; an admissible oracle returns some permutation of it.
-/

deriving instance DecidableEq for Except

/-- UTF-8 bytes of an ASCII string literal (used only for ASCII literals,
where code points and bytes coincide). -/
def ascii (s : String) : List Nat := s.data.map Char.toNat

/-- `usize::MAX` on a 64-bit target; `DiffConfig::default()` uses it as the
"show all context" sentinel. -/
def USIZE_MAX : Nat := 2 ^ 64 - 1

-- ===========================================================================
-- Text differ (output-diffing-utility/src/lib.rs)
-- ===========================================================================

/-- Output format for diffs (`OutputFormat`). -/
inductive OutputFormat where
  | Unified
  | Json
  | SideBySide
  | Compact
deriving DecidableEq

/-- Configuration for diff operations (`DiffConfig`). -/
structure DiffConfig where
  context_lines : Nat
  format : OutputFormat
  color : Bool
  verbose : Bool
deriving DecidableEq

/-- `DiffConfig::default()`: unlimited context, unified format. -/
def DiffConfig.default : DiffConfig :=
  { context_lines := USIZE_MAX, format := .Unified, color := false, verbose := false }

/-- A single line change in a text diff (`LineChange`).  Lines are byte
strings. -/
inductive LineChange where
  | unchanged (line : List Nat) (old_line_num : Nat) (new_line_num : Nat)
  | added (line : List Nat) (new_line_num : Nat)
  | removed (line : List Nat) (old_line_num : Nat)
deriving DecidableEq

/-- Result of a text diff (`TextDiffResult`). -/
structure TextDiffResult where
  changes : List LineChange
  old_line_count : Nat
  new_line_count : Nat
deriving DecidableEq

/-- The `old_line_num` carried by an `Unchanged` or `Removed` entry. -/
def LineChange.oldNum? : LineChange → Option Nat
  | .unchanged _ o _ => some o
  | .removed _ o => some o
  | .added _ _ => none

/-- The `new_line_num` carried by an `Unchanged` or `Added` entry. -/
def LineChange.newNum? : LineChange → Option Nat
  | .unchanged _ _ n => some n
  | .added _ n => some n
  | .removed _ _ => none

/-- Is this change an `Unchanged` entry? -/
def LineChange.isUnchanged : LineChange → Bool
  | .unchanged _ _ _ => true
  | _ => false

/-- Strip one trailing carriage return from a reversed line accumulator and
restore source order (the `\r\n` handling of Rust `str::lines`). -/
def finishLine (acc : List Nat) : List Nat :=
  match acc with
  | 13 :: a => a.reverse
  | a => a.reverse

/-- Worker for `splitLines`: `acc` is the current line, reversed. -/
def splitLinesAux : List Nat → List Nat → List (List Nat)
  | [], acc => if acc.isEmpty then [] else [finishLine acc]
  | 10 :: rest, acc => finishLine acc :: splitLinesAux rest []
  | b :: rest, acc => splitLinesAux rest (b :: acc)

/-- Rust `str::lines()` on the byte sequence of a string: split at `\n`,
strip one trailing `\r` per line, and do not produce a final empty line for a
trailing terminator. -/
def splitLines (s : List Nat) : List (List Nat) :=
  splitLinesAux s []

/-- Worker for `lcsDp` with an explicit fuel argument (each recursive call
decreases `i + j`, so fuel `i + j` always suffices; structural recursion on
the fuel keeps the definition kernel-computable). -/
def lcsDpGo {α : Type} [DecidableEq α] (a b : List α) : Nat → Nat → Nat → Nat
  | 0, _, _ => 0
  | fuel + 1, i, j =>
    match i, j with
    | 0, _ => 0
    | _ + 1, 0 => 0
    | i + 1, j + 1 =>
      if a.get? i = b.get? j then lcsDpGo a b fuel i j + 1
      else max (lcsDpGo a b fuel i (j + 1)) (lcsDpGo a b fuel (i + 1) j)

/-- The LCS dynamic-programming table of `compute_lcs`:
`lcsDp a b i j` is `dp[i][j]`, the LCS length of the first `i` elements of
`a` and the first `j` elements of `b`. -/
def lcsDp {α : Type} [DecidableEq α] (a b : List α) (i j : Nat) : Nat :=
  lcsDpGo a b (i + j) i j

/-- Worker for `lcsBack` with an explicit fuel argument, as in `lcsDpGo`. -/
def lcsBackGo {α : Type} [DecidableEq α] (a b : List α) : Nat → Nat → Nat → List Nat
  | 0, _, _ => []
  | fuel + 1, i, j =>
    match i, j with
    | 0, _ => []
    | _ + 1, 0 => []
    | i + 1, j + 1 =>
      if a.get? i = b.get? j then lcsBackGo a b fuel i j ++ [j]
      else if lcsDp a b i (j + 1) > lcsDp a b (i + 1) j then lcsBackGo a b fuel i (j + 1)
      else lcsBackGo a b fuel (i + 1) j

/-- The backtracking loop of `compute_lcs`, producing the recorded `b`-side
indices of one LCS in increasing order (the Rust code pushes them in
decreasing order and reverses at the end). -/
def lcsBack {α : Type} [DecidableEq α] (a b : List α) (i j : Nat) : List Nat :=
  lcsBackGo a b (i + j) i j

/-- `compute_lcs`: indices into `b` of one longest common subsequence. -/
def compute_lcs {α : Type} [DecidableEq α] (a b : List α) : List Nat :=
  lcsBack a b a.length b.length

/-- First pass of `build_changes_from_lcs`: the merge loop emitting
`Unchanged`/`Removed`/`Added` records.  `fuel` bounds the number of loop
iterations; the Rust loop performs at most
`old.length + new.length + lcs.length` of them, so the caller passes more
than that. -/
def buildAllChanges (old new : List (List Nat)) :
    Nat → Nat → Nat → List Nat → List LineChange
  | 0, _, _, _ => []
  | fuel + 1, oldIdx, newIdx, lcs =>
    if oldIdx < old.length ∨ newIdx < new.length then
      if lcs.head? = some newIdx then
        -- this line is in the LCS (unchanged)
        .unchanged (new.getD newIdx []) (oldIdx + 1) (newIdx + 1) ::
          buildAllChanges old new fuel (oldIdx + 1) (newIdx + 1) lcs.tail
      else if oldIdx < old.length ∧
          lcs.any (fun k =>
            decide (k < new.length) && decide (old.getD oldIdx [] = new.getD k [])) = false then
        -- line removed
        .removed (old.getD oldIdx []) (oldIdx + 1) ::
          buildAllChanges old new fuel (oldIdx + 1) newIdx lcs
      else if newIdx < new.length then
        -- line added
        .added (new.getD newIdx []) (newIdx + 1) ::
          buildAllChanges old new fuel oldIdx (newIdx + 1) lcs
      else []
    else []

/-- Second pass of `build_changes_from_lcs`: keep only changed entries and up
to `context_lines` entries of context on each side of each change. -/
def filterContextChanges (all_changes : List LineChange) (context_lines : Nat) :
    List LineChange :=
  let change_indices : List Nat :=
    all_changes.enum.filterMap
      (fun ic => if ic.2.isUnchanged then none else some ic.1)
  if change_indices.isEmpty then []
  else
    (all_changes.enum.filter (fun ic =>
      change_indices.any (fun ci => ci - context_lines ≤ ic.1 ∧ ic.1 ≤ ci + context_lines))).map
      (·.2)

/-- `build_changes_from_lcs`. -/
def build_changes_from_lcs (old_lines new_lines : List (List Nat))
    (lcs_indices : List Nat) (context_lines : Nat) : List LineChange :=
  let all_changes :=
    buildAllChanges old_lines new_lines
      (old_lines.length + new_lines.length + lcs_indices.length + 1) 0 0 lcs_indices
  if context_lines = USIZE_MAX then all_changes
  else filterContextChanges all_changes context_lines

/-- `diff_text`: line-based LCS diff of two (byte-)strings. -/
def diff_text (old new : List Nat) (config : DiffConfig) : TextDiffResult :=
  let old_lines := splitLines old
  let new_lines := splitLines new
  let lcs := compute_lcs old_lines new_lines
  { changes := build_changes_from_lcs old_lines new_lines lcs config.context_lines
    old_line_count := old_lines.length
    new_line_count := new_lines.length }

/-- Is this byte one of the ASCII whitespace characters space, tab, newline,
carriage return?  (Models `char::is_whitespace` for the ASCII-only strings
the code trims.) -/
def isWSByte (b : Nat) : Bool := b = 32 || b = 9 || b = 10 || b = 13

/-- Rust `str::trim` on a byte string, for ASCII whitespace. -/
def trimAsciiWs (l : List Nat) : List Nat :=
  ((l.dropWhile isWSByte).reverse.dropWhile isWSByte).reverse

-- ===========================================================================
-- Binary differ (output-diffing-utility/src/lib.rs)
-- ===========================================================================

/-- A single byte difference in binary files (`ByteDifference`). -/
structure ByteDifference where
  offset : Nat
  old_byte : Option Nat
  new_byte : Option Nat
deriving DecidableEq

/-- Result of a binary diff (`BinaryDiffResult`). -/
structure BinaryDiffResult where
  differences : List ByteDifference
  old_size : Nat
  new_size : Nat
deriving DecidableEq

/-- `diff_binary`: positional byte-wise comparison. -/
def diff_binary (old new : List Nat) (_config : DiffConfig) : BinaryDiffResult :=
  { differences :=
      (List.range (max old.length new.length)).filterMap (fun i =>
        let old_byte := old.get? i
        let new_byte := new.get? i
        if old_byte ≠ new_byte then some ⟨i, old_byte, new_byte⟩ else none)
    old_size := old.length
    new_size := new.length }

-- ===========================================================================
-- JSON value model and parser (output-diffing-utility/src/json.rs)
-- ===========================================================================

/-- A simple JSON value (`JsonValue`).  Numbers are modelled as exact
rationals instead of `f64`; strings and keys are byte strings. -/
inductive JsonValue where
  | null
  | bool (b : Bool)
  | number (q : Rat)
  | string (s : List Nat)
  | array (elems : List JsonValue)
  | obj (pairs : List (List Nat × JsonValue))

/-- JSON parse error (`JsonError`); the diagnostic message is elided. -/
structure JsonError where
deriving DecidableEq

/-- `skip_whitespace`: skip space, newline, carriage return and tab. -/
def skip_whitespace : List Nat → List Nat
  | [] => []
  | b :: rest =>
    if b = 32 ∨ b = 10 ∨ b = 13 ∨ b = 9 then skip_whitespace rest else b :: rest

/-- Worker for `parse_string` after the opening quote: handle closing quote,
the five escape sequences, plain characters, and end of input. -/
def parseStringBody : List Nat → Except JsonError (List Nat × List Nat)
  | [] => .error ⟨⟩
  | 34 :: rest => .ok ([], rest)
  | 92 :: rest =>
    match rest with
    | 110 :: r => (parseStringBody r).map (fun p => (10 :: p.1, p.2))
    | 114 :: r => (parseStringBody r).map (fun p => (13 :: p.1, p.2))
    | 116 :: r => (parseStringBody r).map (fun p => (9 :: p.1, p.2))
    | 92 :: r => (parseStringBody r).map (fun p => (92 :: p.1, p.2))
    | 34 :: r => (parseStringBody r).map (fun p => (34 :: p.1, p.2))
    | _ => .error ⟨⟩
  | c :: rest => (parseStringBody rest).map (fun p => (c :: p.1, p.2))

/-- `parse_string`: a double-quoted string with escapes. -/
def parse_string : List Nat → Except JsonError (List Nat × List Nat)
  | 34 :: rest => parseStringBody rest
  | _ => .error ⟨⟩

/-- Is this byte an ASCII decimal digit? -/
def isDigitByte (b : Nat) : Bool := 48 ≤ b && b ≤ 57

/-- The characters `parse_number` accumulates after the optional minus:
digits, `.`, `e`, `E`, `+`, `-`. -/
def isNumByte (b : Nat) : Bool :=
  (48 ≤ b && b ≤ 57) || b = 46 || b = 101 || b = 69 || b = 43 || b = 45

/-- Decimal value of a digit-byte list (most significant first). -/
def digitsVal (l : List Nat) : Nat :=
  l.foldl (fun acc b => acc * 10 + (b - 48)) 0

/-- The value of Rust `str::parse::<f64>` on the accumulated number token,
as an exact rational (`none` exactly when Rust's parse fails; the grammar is
Rust's float grammar restricted to the characters `parse_number` can
accumulate, which excludes `inf`/`nan`). -/
def parseF64 (s : List Nat) : Option Rat :=
  let (neg, s1) :=
    match s with
    | 45 :: r => (true, r)
    | 43 :: r => (false, r)
    | _ => (false, s)
  let intDigits := s1.takeWhile isDigitByte
  let s2 := s1.dropWhile isDigitByte
  let (fracDigits, s3) :=
    match s2 with
    | 46 :: r => (r.takeWhile isDigitByte, r.dropWhile isDigitByte)
    | _ => ([], s2)
  if intDigits.isEmpty ∧ fracDigits.isEmpty then none
  else
    let mant : Rat :=
      (digitsVal intDigits : Rat) +
        (digitsVal fracDigits : Rat) / ((10 : Rat) ^ fracDigits.length)
    let signed : Rat := if neg then -mant else mant
    match s3 with
    | [] => some signed
    | e :: r =>
      if e = 101 ∨ e = 69 then
        let (eneg, r1) :=
          match r with
          | 45 :: r' => (true, r')
          | 43 :: r' => (false, r')
          | _ => (false, r)
        let expDigits := r1.takeWhile isDigitByte
        let r2 := r1.dropWhile isDigitByte
        if expDigits.isEmpty ∨ ¬r2.isEmpty then none
        else
          let scale : Rat := (10 : Rat) ^ digitsVal expDigits
          some (if eneg then signed / scale else signed * scale)
      else none

/-- `parse_number`: optional minus, then a run of number characters, parsed
as a 64-bit float (here: exact rational). -/
def parse_number (s : List Nat) : Except JsonError (JsonValue × List Nat) :=
  let (sign, s1) :=
    match s with
    | 45 :: r => ([45], r)
    | _ => (([] : List Nat), s)
  let digits := s1.takeWhile isNumByte
  let rest := s1.dropWhile isNumByte
  match parseF64 (sign ++ digits) with
  | some q => .ok (.number q, rest)
  | none => .error ⟨⟩

/-- `parse_bool`: scan a lowercase-letter run and match `true`/`false`. -/
def parse_bool (s : List Nat) : Except JsonError (JsonValue × List Nat) :=
  let word := s.takeWhile (fun b => 97 ≤ b && b ≤ 122)
  let rest := s.dropWhile (fun b => 97 ≤ b && b ≤ 122)
  if word = ascii ("true") then .ok (.bool true, rest)
  else if word = ascii ("false") then .ok (.bool false, rest)
  else .error ⟨⟩

/-- `parse_null`: scan a lowercase-letter run and match `null`. -/
def parse_null (s : List Nat) : Except JsonError (JsonValue × List Nat) :=
  let word := s.takeWhile (fun b => 97 ≤ b && b ≤ 122)
  let rest := s.dropWhile (fun b => 97 ≤ b && b ≤ 122)
  if word = ascii ("null") then .ok (.null, rest)
  else .error ⟨⟩

mutual

/-- `parse_value`: recursive-descent dispatch on the first non-whitespace
character.  `fuel` bounds the recursion depth; every nesting level consumes
input, so `parse_json`'s fuel is always sufficient. -/
def parse_value : Nat → List Nat → Except JsonError (JsonValue × List Nat)
  | 0, _ => .error ⟨⟩
  | fuel + 1, input =>
    let s := skip_whitespace input
    match s.head? with
    | some 123 => parse_object fuel s
    | some 91 => parse_array fuel s
    | some 34 => (parse_string s).map (fun p => (JsonValue.string p.1, p.2))
    | some 116 => parse_bool s
    | some 102 => parse_bool s
    | some 110 => parse_null s
    | some 45 => parse_number s
    | some b => if 48 ≤ b ∧ b ≤ 57 then parse_number s else .error ⟨⟩
    | none => .error ⟨⟩

/-- `parse_object`: consume `{`, handle the empty object, else parse the
comma-separated `string : value` pairs. -/
def parse_object : Nat → List Nat → Except JsonError (JsonValue × List Nat)
  | 0, _ => .error ⟨⟩
  | fuel + 1, input =>
    let s := skip_whitespace input.tail
    match s.head? with
    | some 125 => .ok (.obj [], s.tail)
    | _ => parseObjectItems fuel s []

/-- The pair loop inside `parse_object`. -/
def parseObjectItems :
    Nat → List Nat → List (List Nat × JsonValue) →
      Except JsonError (JsonValue × List Nat)
  | 0, _, _ => .error ⟨⟩
  | fuel + 1, input, pairs =>
    match parse_string (skip_whitespace input) with
    | .error e => .error e
    | .ok (key, r1) =>
      match (skip_whitespace r1).head? with
      | some 58 =>
        match parse_value fuel (skip_whitespace r1).tail with
        | .error e => .error e
        | .ok (value, r2) =>
          let r3 := skip_whitespace r2
          match r3.head? with
          | some 44 => parseObjectItems fuel r3.tail (pairs ++ [(key, value)])
          | some 125 => .ok (.obj (pairs ++ [(key, value)]), r3.tail)
          | _ => .error ⟨⟩
      | _ => .error ⟨⟩

/-- `parse_array`: consume `[`, handle the empty array, else parse the
comma-separated values. -/
def parse_array : Nat → List Nat → Except JsonError (JsonValue × List Nat)
  | 0, _ => .error ⟨⟩
  | fuel + 1, input =>
    let s := skip_whitespace input.tail
    match s.head? with
    | some 93 => .ok (.array [], s.tail)
    | _ => parseArrayItems fuel s []

/-- The element loop inside `parse_array`. -/
def parseArrayItems :
    Nat → List Nat → List JsonValue → Except JsonError (JsonValue × List Nat)
  | 0, _, _ => .error ⟨⟩
  | fuel + 1, input, values =>
    match parse_value fuel input with
    | .error e => .error e
    | .ok (value, r1) =>
      let r2 := skip_whitespace r1
      match r2.head? with
      | some 44 => parseArrayItems fuel r2.tail (values ++ [value])
      | some 93 => .ok (.array (values ++ [value]), r2.tail)
      | _ => .error ⟨⟩

end

/-- `parse_json`: trim the input and parse one value (any trailing input
after the value is ignored, as in the source).  The fuel `3 * length + 3`
exceeds the recursion depth of the Rust parser on this input, since each
level of nesting consumes at least one input character at a cost of at most
three recursive calls. -/
def parse_json (input : List Nat) : Except JsonError JsonValue :=
  (parse_value (3 * input.length + 3) (trimAsciiWs input)).map Prod.fst

-- ===========================================================================
-- Structural (JSON) differ (output-diffing-utility/src/lib.rs)
-- ===========================================================================

/-- A change in JSON structure (`JsonChange`). -/
inductive JsonChange where
  | added (path : List Nat) (value : JsonValue)
  | removed (path : List Nat) (value : JsonValue)
  | modified (path : List Nat) (old_value : JsonValue) (new_value : JsonValue)
  | typeChanged (path : List Nat) (old_value : JsonValue) (new_value : JsonValue)

/-- The path component of a change. -/
def JsonChange.path : JsonChange → List Nat
  | .added p _ => p
  | .removed p _ => p
  | .modified p _ _ => p
  | .typeChanged p _ _ => p

/-- Result of a JSON diff operation (`JsonDiffResult`). -/
structure JsonDiffResult where
  changes : List JsonChange

/-- `f64::EPSILON` as an exact rational. -/
def f64Epsilon : Rat := 1 / 2 ^ 52

/-- Little-endian base-10 digits of `n` (empty for zero), computed with a
fuel argument to stay kernel-computable; fuel `n` always suffices. -/
def decDigitsGo : Nat → Nat → List Nat
  | 0, _ => []
  | fuel + 1, n => if n = 0 then [] else n % 10 :: decDigitsGo fuel (n / 10)

/-- Decimal rendering of a `Nat`, as the ASCII bytes `format!("{}")` writes
(most significant digit first, `"0"` for zero). -/
def natDecimal (n : Nat) : List Nat :=
  if n = 0 then [48] else (decDigitsGo n n).reverse.map (fun d => d + 48)

/-- The contents of the `all_keys` hash set in insertion order: first
occurrences are kept, later duplicates are skipped (exactly what repeated
`HashSet::insert` builds).  `seen` is the set of already-inserted keys. -/
def hashSetKeys (seen : List (List Nat)) : List (List Nat) → List (List Nat)
  | [] => []
  | a :: l => if a ∈ seen then hashSetKeys seen l else a :: hashSetKeys (a :: seen) l

/-- The distinct keys of a key sequence, in first-occurrence order. -/
def dedupFirst (l : List (List Nat)) : List (List Nat) := hashSetKeys [] l

/-- Drop every object entry whose key already occurred (in `seen` or
earlier in the list), keeping only the first entry of each key. -/
def dedupEntriesGo (seen : List (List Nat)) :
    List (List Nat × JsonValue) → List (List Nat × JsonValue)
  | [] => []
  | p :: rest =>
    if p.1 ∈ seen then dedupEntriesGo seen rest
    else p :: dedupEntriesGo (p.1 :: seen) rest

/-- The first-occurrence-per-key restriction of an object entry list: what
remains of an `Object` when every entry after the first bearing its key is
removed. -/
def dedupEntries (l : List (List Nat × JsonValue)) :
    List (List Nat × JsonValue) := dedupEntriesGo [] l

/-- An ordering oracle modelling `HashSet` iteration: given the set contents
in insertion order it yields them in the (run-dependent) order the set
iterates.  Admissibility: the oracle returns a permutation of the distinct
keys. -/
def HashOrderOK (ord : List (List Nat) → List (List Nat)) : Prop :=
  ∀ l, (ord l).Perm (dedupFirst l)

/-- `compare_json_values`, parameterised by the hash-set ordering oracle
`ord` and a recursion-depth fuel (the value trees are finite, and
`diff_json` passes fuel exceeding their combined size). -/
def compare_json_values (ord : List (List Nat) → List (List Nat)) :
    Nat → List Nat → JsonValue → JsonValue → List JsonChange
  | 0, _, _, _ => []
  | fuel + 1, path, old, new =>
    match old, new with
    | .null, .null => []
    | .bool a, .bool b =>
      if a ≠ b then [.modified path (.bool a) (.bool b)] else []
    | .number a, .number b =>
      if |a - b| > f64Epsilon then [.modified path (.number a) (.number b)] else []
    | .string a, .string b =>
      if a ≠ b then [.modified path (.string a) (.string b)] else []
    | .array old_arr, .array new_arr =>
      (List.range (max old_arr.length new_arr.length)).flatMap (fun i =>
        let element_path :=
          if path.isEmpty then ascii ("[") ++ natDecimal i ++ ascii ("]")
          else path ++ ascii ("[") ++ natDecimal i ++ ascii ("]")
        match old_arr.get? i, new_arr.get? i with
        | some old_elem, some new_elem =>
          compare_json_values ord fuel element_path old_elem new_elem
        | some old_elem, none => [.removed element_path old_elem]
        | none, some new_elem => [.added element_path new_elem]
        | none, none => [])
    | .obj old_obj, .obj new_obj =>
      (ord (dedupFirst (old_obj.map Prod.fst ++ new_obj.map Prod.fst))).flatMap (fun key =>
        let field_path := if path.isEmpty then key else path ++ [46] ++ key
        match (old_obj.find? (fun p => p.1 == key)).map Prod.snd,
            (new_obj.find? (fun p => p.1 == key)).map Prod.snd with
        | some old_v, some new_v => compare_json_values ord fuel field_path old_v new_v
        | some old_v, none => [.removed field_path old_v]
        | none, some new_v => [.added field_path new_v]
        | none, none => [])
    | _, _ => [.typeChanged path old new]

/-- `diff_json`: parse both inputs, then compare structurally.  The fuel
`old.length + new.length + 1` strictly exceeds the recursion depth of
`compare_json_values`, since the nesting depth of each parsed value is
bounded by the length of the text it was parsed from. -/
def diff_json (ord : List (List Nat) → List (List Nat)) (old new : List Nat)
    (_config : DiffConfig) : Except JsonError JsonDiffResult :=
  match parse_json old with
  | .error e => .error e
  | .ok old_value =>
    match parse_json new with
    | .error e => .error e
    | .ok new_value =>
      .ok ⟨compare_json_values ord (old.length + new.length + 1) []
        old_value new_value⟩

-- ===========================================================================
-- Content classifier (output-diffing-utility/src/lib.rs, detect_file_type)
-- ===========================================================================

/-- File type for diffing (`FileType`). -/
inductive FileType where
  | Text
  | Json
  | Binary
deriving DecidableEq

/-- Is this byte a UTF-8 continuation byte `0x80..=0xBF`? -/
def isContByte (b : Nat) : Bool := 128 ≤ b && b ≤ 191

/-- Allowed second byte of a three-byte UTF-8 sequence (excludes overlong
forms for `0xE0` and surrogates for `0xED`). -/
def utf8Second3 (b1 b2 : Nat) : Bool :=
  if b1 = 224 then 160 ≤ b2 && b2 ≤ 191
  else if b1 = 237 then 128 ≤ b2 && b2 ≤ 159
  else isContByte b2

/-- Allowed second byte of a four-byte UTF-8 sequence (excludes overlong
forms for `0xF0` and code points above `U+10FFFF` for `0xF4`). -/
def utf8Second4 (b1 b2 : Nat) : Bool :=
  if b1 = 240 then 144 ≤ b2 && b2 ≤ 191
  else if b1 = 244 then 128 ≤ b2 && b2 ≤ 143
  else isContByte b2

/-- UTF-8 validation and decoding (`std::str::from_utf8` followed by
`str::chars`): `some` with the list of Unicode scalar values exactly when
the byte sequence is valid UTF-8. -/
def utf8Decode : List Nat → Option (List Nat)
  | [] => some []
  | b1 :: rest =>
    if b1 ≤ 127 then (utf8Decode rest).map (fun cs => b1 :: cs)
    else
      match rest with
      | b2 :: rest2 =>
        if 194 ≤ b1 ∧ b1 ≤ 223 then
          if isContByte b2 then
            (utf8Decode rest2).map (fun cs => ((b1 - 192) * 64 + (b2 - 128)) :: cs)
          else none
        else
          match rest2 with
          | b3 :: rest3 =>
            if 224 ≤ b1 ∧ b1 ≤ 239 then
              if utf8Second3 b1 b2 && isContByte b3 then
                (utf8Decode rest3).map (fun cs =>
                  ((b1 - 224) * 4096 + (b2 - 128) * 64 + (b3 - 128)) :: cs)
              else none
            else
              match rest3 with
              | b4 :: rest4 =>
                if 240 ≤ b1 ∧ b1 ≤ 244 then
                  if utf8Second4 b1 b2 && isContByte b3 && isContByte b4 then
                    (utf8Decode rest4).map (fun cs =>
                      ((b1 - 240) * 262144 + (b2 - 128) * 4096 +
                        (b3 - 128) * 64 + (b4 - 128)) :: cs)
                  else none
                else none
              | _ => none
          | _ => none
      | _ => none

/-- `char::is_control` on a Unicode scalar value: the `Cc` general category,
`U+0000..=U+001F` and `U+007F..=U+009F`. -/
def isControlCp (c : Nat) : Bool := c ≤ 31 || (127 ≤ c && c ≤ 159)

/-- The character filter of `detect_file_type`: not a control character, or
one of newline, carriage return, tab. -/
def isPrintableCp (c : Nat) : Bool := !isControlCp c || c = 10 || c = 13 || c = 9

/-- The printable-character count of the classifier. -/
def printableCount (chars : List Nat) : Nat := (chars.filter isPrintableCp).length

/-- ASCII lowercasing of an extension hint (`str::to_lowercase`; for the
ASCII extensions that can match the recognized lists this agrees with the
Unicode lowercasing the code performs). -/
def asciiLower (s : List Nat) : List Nat :=
  s.map (fun b => if 65 ≤ b ∧ b ≤ 90 then b + 32 else b)

/-- The fixed allow-list of plain-text extensions in `detect_file_type`. -/
def textExtensions : List (List Nat) :=
  [ascii ("txt"), ascii ("md"), ascii ("log"), ascii ("rs"), ascii ("ts"),
   ascii ("js"), ascii ("py"), ascii ("c"), ascii ("h"), ascii ("cpp"),
   ascii ("hpp")]

/-- The content-based part of `detect_file_type` (after the extension hint
fell through): UTF-8 decode, then the ≥95% printable test. -/
def detectByContent (content : List Nat) : FileType :=
  match utf8Decode content with
  | some chars =>
    let printable_count := printableCount chars
    let total_chars := chars.length
    if total_chars > 0 ∧ printable_count * 100 / total_chars ≥ 95 then .Text
    else .Binary
  | none => .Binary

/-- `detect_file_type`: extension hint first (`json` wins, then the
plain-text allow-list), then content-based detection. -/
def detect_file_type (content : List Nat) (extension : Option (List Nat)) : FileType :=
  match extension with
  | some ext =>
    let e := asciiLower ext
    if e = ascii ("json") then .Json
    else if textExtensions.contains e then .Text
    else detectByContent content
  | none => detectByContent content

-- ===========================================================================
-- Snapshot store (snapshot-comparison/src/lib.rs)
-- ===========================================================================

/-- Maximum number of header lines (`MAX_HEADER_LINES`). -/
def MAX_HEADER_LINES : Nat := 100

/-- Maximum length of a single header line in bytes (`MAX_HEADER_LINE_LENGTH`). -/
def MAX_HEADER_LINE_LENGTH : Nat := 1024

/-- Maximum snapshot content size in bytes (`MAX_CONTENT_SIZE`, 100 MiB). -/
def MAX_CONTENT_SIZE : Nat := 100 * 1024 * 1024

/-- Error types for snapshot operations (`SnapshotError`); diagnostic
message payloads are elided. -/
inductive SnapshotError where
  | notFound
  | ioError
  | invalidName
  | corruptedSnapshot
  | invalidUtf8
deriving DecidableEq

/-- Configuration for snapshot operations (`SnapshotConfig`). -/
structure SnapshotConfig where
  file_type : Option FileType
  color : Bool
  context_lines : Nat
  update_mode : Bool
deriving DecidableEq

/-- `SnapshotConfig::default()`. -/
def SnapshotConfig.default : SnapshotConfig :=
  { file_type := none, color := false, context_lines := 3, update_mode := false }

/-- Metadata for a snapshot (`SnapshotMetadata`).  `content_hash` is the
16-character lowercase hex string, as bytes. -/
structure SnapshotMetadata where
  name : List Nat
  created_at : Nat
  updated_at : Nat
  content_hash : List Nat
  size : Nat
  file_type : FileType
deriving DecidableEq

/-- A stored snapshot (`Snapshot`). -/
structure Snapshot where
  metadata : SnapshotMetadata
  content : List Nat
deriving DecidableEq

/-- The file system seen by a `SnapshotStore`: an association of snapshot
name to the bytes of its `<name>.snap` file. -/
abbrev Store : Type := List (List Nat × List Nat)

/-- The bytes of `<name>.snap`, if that file exists. -/
def storeLookup (store : Store) (name : List Nat) : Option (List Nat) :=
  (List.find? (fun p => p.1 == name) store).map Prod.snd

/-- Create or overwrite `<name>.snap` with the given bytes. -/
def storeInsert (store : Store) (name file : List Nat) : Store :=
  (List.filter (fun p => p.1 != name) store) ++ [(name, file)]

/-- Remove `<name>.snap`. -/
def storeErase (store : Store) (name : List Nat) : Store :=
  List.filter (fun p => p.1 != name) store

/-- Does `name` consist of a byte of ASCII `-`, `_`, `.` or an ASCII
alphanumeric?  (`c.is_ascii_alphanumeric() || c == '-' || c == '_' ||
c == '.'`.) -/
def isNameByte (b : Nat) : Bool :=
  (48 ≤ b && b ≤ 57) || (65 ≤ b && b ≤ 90) || (97 ≤ b && b ≤ 122) ||
    b = 45 || b = 95 || b = 46

/-- Does the byte pair `x, y` occur consecutively in the list?
(`str::contains` of a two-character pattern.) -/
def containsSeq2 (x y : Nat) : List Nat → Bool
  | a :: b :: rest => (a = x && b = y) || containsSeq2 x y (b :: rest)
  | _ => false

/-- `SnapshotStore::validate_name`. -/
def validate_name (name : List Nat) : Except SnapshotError Unit :=
  if name.isEmpty then .error .invalidName
  else if containsSeq2 46 46 name || name.contains 47 || name.contains 92 then
    .error .invalidName
  else if name.contains 0 then .error .invalidName
  else if name.all isNameByte then .ok ()
  else .error .invalidName

/-- `FNV_OFFSET` basis of FNV-1a. -/
def FNV_OFFSET : Nat := 0xcbf29ce484222325

/-- `FNV_PRIME` of FNV-1a. -/
def FNV_PRIME : Nat := 0x100000001b3

/-- The `u64` FNV-1a digest of the content (`hash ^= byte;
hash = hash.wrapping_mul(FNV_PRIME)`). -/
def fnv1a (content : List Nat) : Nat :=
  content.foldl (fun hash byte => ((hash ^^^ byte) * FNV_PRIME) % 2 ^ 64) FNV_OFFSET

/-- One lowercase hex digit as an ASCII byte. -/
def hexDigitByte (d : Nat) : Nat := if d < 10 then 48 + d else 87 + d

/-- `format!("{:016x}")` of a `u64`: 16 lowercase hex digits, zero padded. -/
def natToHex16 (h : Nat) : List Nat :=
  (List.range 16).map (fun i => hexDigitByte (h / 16 ^ (15 - i) % 16))

/-- `SnapshotStore::compute_hash`: the FNV-1a digest rendered as a
16-character lowercase hex string. -/
def compute_hash (content : List Nat) : List Nat :=
  natToHex16 (fnv1a content)

/-- The `# Type:` header value of a file type. -/
def fileTypeStr : FileType → List Nat
  | .Text => ascii ("text")
  | .Json => ascii ("json")
  | .Binary => ascii ("binary")

/-- `SnapshotStore::write_snapshot`: the bytes of the on-disk envelope. -/
def write_snapshot (s : Snapshot) : List Nat :=
  ascii ("# Snapshot: ") ++ s.metadata.name ++ [10] ++
  ascii ("# Created: ") ++ natDecimal s.metadata.created_at ++ [10] ++
  ascii ("# Updated: ") ++ natDecimal s.metadata.updated_at ++ [10] ++
  ascii ("# Hash: ") ++ s.metadata.content_hash ++ [10] ++
  ascii ("# Size: ") ++ natDecimal s.metadata.size ++ [10] ++
  ascii ("# Type: ") ++ fileTypeStr s.metadata.file_type ++ [10] ++
  ascii ("---") ++ [10] ++
  s.content

/-- `BufRead::read_line`: the first line of the bytes (including its
terminating newline, if present before end of input) and the remaining
bytes. -/
def read_line : List Nat → List Nat × List Nat
  | [] => ([], [])
  | b :: rest =>
    if b = 10 then ([10], rest)
    else
      let p := read_line rest
      (b :: p.1, p.2)

/-- Split a header line at the first occurrence of `": "`
(`str::split_once(": ")`). -/
def splitColonSpace : List Nat → Option (List Nat × List Nat)
  | [] => none
  | 58 :: 32 :: rest => some ([], rest)
  | b :: rest => (splitColonSpace rest).map (fun p => (b :: p.1, p.2))

/-- `HashMap::insert` on the header map, modelled as an association list
with at most one entry per key. -/
def hdrInsert (m : List (List Nat × List Nat)) (k v : List Nat) :
    List (List Nat × List Nat) :=
  (List.filter (fun p => p.1 != k) m) ++ [(k, v)]

/-- `HashMap::get` on the header map. -/
def hdrGet (m : List (List Nat × List Nat)) (k : List Nat) : Option (List Nat) :=
  (List.find? (fun p => p.1 == k) m).map Prod.snd

/-- `str::parse::<u64>` (also `usize` on a 64-bit target): optional leading
`+`, then one or more ASCII digits, failing on overflow. -/
def parseU64 (s : List Nat) : Option Nat :=
  let digits := if s.head? = some 43 then s.tail else s
  if digits.isEmpty then none
  else if digits.all isDigitByte then
    let v := digitsVal digits
    if v < 2 ^ 64 then some v else none
  else none

/-- Processing of one non-separator header line by the loop of
`SnapshotStore::read`: a line of the shape `# key: value` inserts the pair
into the header map (`strip_prefix("# ")`, trim, `split_once(": ")`);
anything else is ignored. -/
def headerLineInsert (header : List (List Nat × List Nat)) (line : List Nat) :
    List (List Nat × List Nat) :=
  match line with
  | 35 :: 32 :: stripped =>
    match splitColonSpace (trimAsciiWs stripped) with
    | some kv => hdrInsert header kv.1 kv.2
    | none => header
  | _ => header

/-- The header-parsing loop of `SnapshotStore::read`, from the first byte of
the file to the `---` separator: reads each line with
`BufRead::read_line` — which fails with an `InvalidData` I/O error, mapped
to `SnapshotError::IoError`, when the line bytes are not valid UTF-8 —
enforces the line-length, line-count and content-size limits, collects
`# key: value` lines into the header map, and returns the map together
with the verbatim content bytes (`read_to_end` reads the content as raw
bytes, without UTF-8 validation).  Each iteration consumes at least one
byte, so fuel `file.length + 1` always suffices. -/
def parse_header :
    Nat → List Nat → List (List Nat × List Nat) → Nat →
      Except SnapshotError (List (List Nat × List Nat) × List Nat)
  | 0, _, _, _ => .error .corruptedSnapshot
  | fuel + 1, bs, header, count =>
    match bs with
    | [] => .error .corruptedSnapshot  -- EOF before `---`: missing separator
    | _ :: _ =>
      let line := (read_line bs).1
      let rest := (read_line bs).2
      if (utf8Decode line).isNone then .error .ioError
      else if line.length > MAX_HEADER_LINE_LENGTH then
        .error .corruptedSnapshot
      else if count + 1 > MAX_HEADER_LINES then .error .corruptedSnapshot
      else if trimAsciiWs line = ascii ("---") then
        -- found the separator: the remaining bytes are the content
        if rest.length > MAX_CONTENT_SIZE then .error .corruptedSnapshot
        else .ok (header, rest)
      else
        parse_header fuel rest (headerLineInsert header line) (count + 1)

/-- The `# Snapshot:` header key. -/
def hdrKeySnapshot : List Nat := ascii ("Snapshot")

/-- The `# Created:` header key. -/
def hdrKeyCreated : List Nat := ascii ("Created")

/-- The `# Updated:` header key. -/
def hdrKeyUpdated : List Nat := ascii ("Updated")

/-- The `# Hash:` header key. -/
def hdrKeyHash : List Nat := ascii ("Hash")

/-- The `# Size:` header key. -/
def hdrKeySize : List Nat := ascii ("Size")

/-- The `# Type:` header key. -/
def hdrKeyType : List Nat := ascii ("Type")

/-- The `# Type:` value parser of `SnapshotStore::read`: `json` and
`binary` are recognized, anything else is `Text`. -/
def parseTypeValue (v : List Nat) : FileType :=
  if v = ascii ("json") then .Json
  else if v = ascii ("binary") then .Binary
  else .Text

/-- `SnapshotStore::read`: validate the name, look the file up, parse the
envelope, and assemble the metadata, falling back to recomputed or default
values for missing or unparsable header fields. -/
def SnapshotStore.read (store : Store) (name : List Nat) : Except SnapshotError Snapshot :=
  match validate_name name with
  | .error e => .error e
  | .ok _ =>
    match storeLookup store name with
    | none => .error .notFound
    | some file =>
      match parse_header (file.length + 1) file [] 0 with
      | .error e => .error e
      | .ok (header, content) =>
        let snapshot_name := (hdrGet header hdrKeySnapshot).getD name
        let created_at := ((hdrGet header hdrKeyCreated).bind parseU64).getD 0
        let updated_at := ((hdrGet header hdrKeyUpdated).bind parseU64).getD 0
        let content_hash := (hdrGet header hdrKeyHash).getD (compute_hash content)
        let size := ((hdrGet header hdrKeySize).bind parseU64).getD content.length
        let file_type :=
          ((hdrGet header hdrKeyType).map parseTypeValue).getD
            (detect_file_type content none)
        .ok { metadata :=
                { name := snapshot_name, created_at := created_at,
                  updated_at := updated_at, content_hash := content_hash,
                  size := size, file_type := file_type }
              content := content }

/-- `SnapshotStore::create`: validate the name, classify the content (unless
forced), hash it, and write the envelope.  Directory creation and file I/O
are modelled as succeeding; `now` is the current Unix time in seconds. -/
def create (store : Store) (name content : List Nat) (config : SnapshotConfig)
    (now : Nat) : Except SnapshotError (Snapshot × Store) :=
  match validate_name name with
  | .error e => .error e
  | .ok _ =>
    let file_type := config.file_type.getD (detect_file_type content none)
    let snapshot : Snapshot :=
      { metadata :=
          { name := name, created_at := now, updated_at := now,
            content_hash := compute_hash content, size := content.length,
            file_type := file_type }
        content := content }
    .ok (snapshot, storeInsert store name (write_snapshot snapshot))

/-- `SnapshotStore::update`: like `create`, but preserves the original
`created_at` when the snapshot file already exists and is readable. -/
def update (store : Store) (name content : List Nat) (config : SnapshotConfig)
    (now : Nat) : Except SnapshotError (Snapshot × Store) :=
  match validate_name name with
  | .error e => .error e
  | .ok _ =>
    let created_at :=
      match storeLookup store name with
      | some _ =>
        match SnapshotStore.read store name with
        | .ok s => s.metadata.created_at
        | .error _ => now
      | none => now
    let file_type := config.file_type.getD (detect_file_type content none)
    let snapshot : Snapshot :=
      { metadata :=
          { name := name, created_at := created_at, updated_at := now,
            content_hash := compute_hash content, size := content.length,
            file_type := file_type }
        content := content }
    .ok (snapshot, storeInsert store name (write_snapshot snapshot))

/-- `SnapshotStore::delete`. -/
def delete (store : Store) (name : List Nat) :
    Except SnapshotError (Unit × Store) :=
  match validate_name name with
  | .error e => .error e
  | .ok _ =>
    match storeLookup store name with
    | none => .error .notFound
    | some _ => .ok ((), storeErase store name)

/-- Diff output from the diff integration (`DiffOutput`). -/
inductive DiffOutput where
  | Text (result : TextDiffResult)
  | Json (result : JsonDiffResult)
  | Binary (result : BinaryDiffResult)

/-- Result of a snapshot comparison (`CompareResult`). -/
inductive CompareResult where
  | Match
  | Mismatch (snapshot : Snapshot) (actual : List Nat) (diff : DiffOutput)
  | Updated (old_snapshot : Snapshot) (new_content : List Nat)

/-- `SnapshotStore::check`: read the snapshot, short-circuit to `Match` on
hash equality, otherwise compute the diff selected by the file type (with
the JSON-to-text fallback) and either update in place (update mode) or
report the mismatch.  `ord` is the hash-set ordering oracle of the
structural differ; `now` is the current time used by an update. -/
def check (ord : List (List Nat) → List (List Nat)) (store : Store)
    (name actual : List Nat) (config : SnapshotConfig) (now : Nat) :
    Except SnapshotError (CompareResult × Store) :=
  match SnapshotStore.read store name with
  | .error e => .error e
  | .ok snapshot =>
    let actual_hash := compute_hash actual
    if snapshot.metadata.content_hash = actual_hash then .ok (.Match, store)
    else
      let diff_config : DiffConfig :=
        { context_lines := config.context_lines, format := .Unified,
          color := config.color, verbose := false }
      let file_type := config.file_type.getD snapshot.metadata.file_type
      let diffRes : Except SnapshotError DiffOutput :=
        match file_type with
        | .Text =>
          if (utf8Decode snapshot.content).isSome then
            if (utf8Decode actual).isSome then
              .ok (.Text (diff_text snapshot.content actual diff_config))
            else .error .invalidUtf8
          else .error .invalidUtf8
        | .Json =>
          if (utf8Decode snapshot.content).isSome then
            if (utf8Decode actual).isSome then
              match diff_json ord snapshot.content actual diff_config with
              | .ok result => .ok (.Json result)
              | .error _ =>
                -- fall back to text diff if JSON parsing fails
                .ok (.Text (diff_text snapshot.content actual diff_config))
            else .error .invalidUtf8
          else .error .invalidUtf8
        | .Binary => .ok (.Binary (diff_binary snapshot.content actual diff_config))
      match diffRes with
      | .error e => .error e
      | .ok diff =>
        if config.update_mode then
          match update store name actual config now with
          | .error e => .error e
          | .ok (_, store') => .ok (.Updated snapshot actual, store')
        else .ok (.Mismatch snapshot actual diff, store)

-- ===========================================================================
-- Concrete instances and auxiliary predicates used by the claims
-- ===========================================================================

/-- Pointwise relation on `diff_json` outcomes: both fail, or both succeed
with change sequences that are permutations of each other. -/
def exceptPermRel (a b : Except JsonError JsonDiffResult) : Prop :=
  match a, b with
  | .ok r1, .ok r2 => r1.changes.Perm r2.changes
  | .error _, .error _ => True
  | _, _ => False

/-- A second admissible hash-set ordering: iterate the key set in reverse
insertion order. -/
def c6ord2 (l : List (List Nat)) : List (List Nat) := (dedupFirst l).reverse

/-- Old JSON input of the C6 counterexample. -/
def c6old : List Nat := ascii ("\x7b\"a\": \"x\", \"b\": \"y\"\x7d")

/-- New JSON input of the C6 counterexample. -/
def c6new : List Nat := ascii ("\x7b\"a\": \"z\", \"b\": \"w\"\x7d")

/-- The paths of the emitted changes of a `diff_json` outcome. -/
def diffPaths (e : Except JsonError JsonDiffResult) : List (List Nat) :=
  match e with
  | .ok r => r.changes.map JsonChange.path
  | .error _ => []

/-- The header map that parsing a written envelope recovers. -/
def envHeader (s : Snapshot) : List (List Nat × List Nat) :=
  [(hdrKeySnapshot, s.metadata.name),
   (hdrKeyCreated, natDecimal s.metadata.created_at),
   (hdrKeyUpdated, natDecimal s.metadata.updated_at),
   (hdrKeyHash, s.metadata.content_hash),
   (hdrKeySize, natDecimal s.metadata.size),
   (hdrKeyType, fileTypeStr s.metadata.file_type)]

/-- Content exceeding `MAX_CONTENT_SIZE` by one byte (C2 counterexample). -/
def c2bigContent : List Nat := List.replicate (MAX_CONTENT_SIZE + 1) 0

/-- The snapshot `create` produces for name `"t"` and that content. -/
def c2bigSnap : Snapshot :=
  { metadata :=
      { name := [116], created_at := 0, updated_at := 0,
        content_hash := compute_hash c2bigContent, size := c2bigContent.length,
        file_type := detect_file_type c2bigContent none }
    content := c2bigContent }

/-- A 1012-character snapshot name (C3 counterexample): valid, but its
`# Snapshot:` header line is 1025 bytes, one over the reader limit. -/
def c3name : List Nat := List.replicate 1012 97

/-- The snapshot `create` produces for that name and empty content. -/
def c3snap : Snapshot :=
  { metadata :=
      { name := c3name, created_at := 0, updated_at := 0,
        content_hash := compute_hash [], size := 0,
        file_type := detect_file_type [] none }
    content := [] }

/-- A byte list that can stand on one side of the `": "` of an envelope
header line without disturbing the reader: nonempty, and free of newlines,
colons and ASCII whitespace. -/
abbrev headerTokenOK (v : List Nat) : Prop :=
  v ≠ [] ∧ ∀ b ∈ v, b ≠ 10 ∧ b ≠ 58 ∧ isWSByte b = false

/-- The snapshot `create` produces for name `"t"`, content `"a"` and time 0
(C2 witness). -/
def c2wSnap : Snapshot :=
  { metadata :=
      { name := [116], created_at := 0, updated_at := 0,
        content_hash := compute_hash [97], size := 1,
        file_type := detect_file_type [97] none }
    content := [97] }

-- ===========================================================================
-- Helper lemmas: LCS table and backtracking
-- ===========================================================================

theorem lcsDpGo_zero_left {α : Type} [DecidableEq α] (a b : List α) (fuel j : Nat) :
    lcsDpGo a b fuel 0 j = 0 := by
  cases fuel <;> simp [lcsDpGo]

theorem lcsDpGo_zero_right {α : Type} [DecidableEq α] (a b : List α) (fuel i : Nat) :
    lcsDpGo a b fuel i 0 = 0 := by
  cases fuel <;> cases i <;> simp [lcsDpGo]

theorem lcsDpGo_congr {α : Type} [DecidableEq α] (a b : List α) :
    ∀ f1 f2 i j, i + j ≤ f1 → i + j ≤ f2 →
      lcsDpGo a b f1 i j = lcsDpGo a b f2 i j := by
  intro f1
  induction f1 with
  | zero =>
    intro f2 i j h1 _
    have hi : i = 0 := by omega
    subst hi
    simp [lcsDpGo_zero_left]
  | succ f1 ih =>
    intro f2 i j h1 h2
    match i, j with
    | 0, j => simp [lcsDpGo_zero_left]
    | i + 1, 0 => simp [lcsDpGo_zero_right]
    | i + 1, j + 1 =>
      match f2, h2 with
      | f2 + 1, h2 =>
        simp only [lcsDpGo]
        rw [ih f2 i j (by omega) (by omega), ih f2 i (j + 1) (by omega) (by omega),
          ih f2 (i + 1) j (by omega) (by omega)]

theorem lcsDp_zero_left {α : Type} [DecidableEq α] (a b : List α) (j : Nat) :
    lcsDp a b 0 j = 0 := lcsDpGo_zero_left a b _ j

theorem lcsDp_zero_right {α : Type} [DecidableEq α] (a b : List α) (i : Nat) :
    lcsDp a b i 0 = 0 := lcsDpGo_zero_right a b _ i

theorem lcsDpGo_succ_succ_succ {α : Type} [DecidableEq α] (a b : List α)
    (fuel i j : Nat) :
    lcsDpGo a b (fuel + 1) (i + 1) (j + 1) =
      if a.get? i = b.get? j then lcsDpGo a b fuel i j + 1
      else max (lcsDpGo a b fuel i (j + 1)) (lcsDpGo a b fuel (i + 1) j) := rfl

theorem lcsDp_succ_succ {α : Type} [DecidableEq α] (a b : List α) (i j : Nat) :
    lcsDp a b (i + 1) (j + 1) =
      if a.get? i = b.get? j then lcsDp a b i j + 1
      else max (lcsDp a b i (j + 1)) (lcsDp a b (i + 1) j) := by
  show lcsDpGo a b (i + 1 + (j + 1)) (i + 1) (j + 1) = _
  have h : i + 1 + (j + 1) = (i + j + 1) + 1 := by omega
  rw [h, lcsDpGo_succ_succ_succ]
  rw [lcsDpGo_congr a b (i + j + 1) (i + j) i j (by omega) (by omega),
    lcsDpGo_congr a b (i + j + 1) (i + (j + 1)) i (j + 1) (by omega) (by omega),
    lcsDpGo_congr a b (i + j + 1) (i + 1 + j) (i + 1) j (by omega) (by omega)]
  rfl

theorem lcsBackGo_zero_left {α : Type} [DecidableEq α] (a b : List α) (fuel j : Nat) :
    lcsBackGo a b fuel 0 j = [] := by
  cases fuel <;> simp [lcsBackGo]

theorem lcsBackGo_zero_right {α : Type} [DecidableEq α] (a b : List α) (fuel i : Nat) :
    lcsBackGo a b fuel i 0 = [] := by
  cases fuel <;> cases i <;> simp [lcsBackGo]

theorem lcsBackGo_congr {α : Type} [DecidableEq α] (a b : List α) :
    ∀ f1 f2 i j, i + j ≤ f1 → i + j ≤ f2 →
      lcsBackGo a b f1 i j = lcsBackGo a b f2 i j := by
  intro f1
  induction f1 with
  | zero =>
    intro f2 i j h1 _
    have hi : i = 0 := by omega
    subst hi
    simp [lcsBackGo_zero_left]
  | succ f1 ih =>
    intro f2 i j h1 h2
    match i, j with
    | 0, j => simp [lcsBackGo_zero_left]
    | i + 1, 0 => simp [lcsBackGo_zero_right]
    | i + 1, j + 1 =>
      match f2, h2 with
      | f2 + 1, h2 =>
        simp only [lcsBackGo]
        rw [ih f2 i j (by omega) (by omega), ih f2 i (j + 1) (by omega) (by omega),
          ih f2 (i + 1) j (by omega) (by omega)]

theorem lcsBackGo_succ_succ_succ {α : Type} [DecidableEq α] (a b : List α)
    (fuel i j : Nat) :
    lcsBackGo a b (fuel + 1) (i + 1) (j + 1) =
      if a.get? i = b.get? j then lcsBackGo a b fuel i j ++ [j]
      else if lcsDp a b i (j + 1) > lcsDp a b (i + 1) j then lcsBackGo a b fuel i (j + 1)
      else lcsBackGo a b fuel (i + 1) j := rfl

theorem lcsBack_zero_left {α : Type} [DecidableEq α] (a b : List α) (j : Nat) :
    lcsBack a b 0 j = [] := lcsBackGo_zero_left a b _ j

theorem lcsBack_zero_right {α : Type} [DecidableEq α] (a b : List α) (i : Nat) :
    lcsBack a b i 0 = [] := lcsBackGo_zero_right a b _ i

theorem lcsBack_succ_succ {α : Type} [DecidableEq α] (a b : List α) (i j : Nat) :
    lcsBack a b (i + 1) (j + 1) =
      if a.get? i = b.get? j then lcsBack a b i j ++ [j]
      else if lcsDp a b i (j + 1) > lcsDp a b (i + 1) j then lcsBack a b i (j + 1)
      else lcsBack a b (i + 1) j := by
  show lcsBackGo a b (i + 1 + (j + 1)) (i + 1) (j + 1) = _
  have h : i + 1 + (j + 1) = (i + j + 1) + 1 := by omega
  rw [h, lcsBackGo_succ_succ_succ]
  rw [lcsBackGo_congr a b (i + j + 1) (i + j) i j (by omega) (by omega),
    lcsBackGo_congr a b (i + j + 1) (i + (j + 1)) i (j + 1) (by omega) (by omega),
    lcsBackGo_congr a b (i + j + 1) (i + 1 + j) (i + 1) j (by omega) (by omega)]
  rfl

/-- The three joint invariants of the backtracking result: every recorded
index is below `j`, the indices are strictly increasing, and the `b`-values
at the recorded indices form a subsequence of the first `i` elements of
`a`. -/
theorem lcsBack_props {α : Type} [DecidableEq α] (a b : List α) (d : α) :
    ∀ fuel i j, i + j ≤ fuel → i ≤ a.length → j ≤ b.length →
      (∀ k ∈ lcsBack a b i j, k < j) ∧ (lcsBack a b i j).Chain' (· < ·) ∧
        ((lcsBack a b i j).map (fun k => b.getD k d)).Sublist (a.take i) := by
  intro fuel
  induction fuel with
  | zero =>
    intro i j h _ _
    have hi : i = 0 := by omega
    subst hi
    simp [lcsBack_zero_left]
  | succ fuel ih =>
    intro i j h hia hjb
    match i, j with
    | 0, j => simp [lcsBack_zero_left]
    | i + 1, 0 => simp [lcsBack_zero_right]
    | i + 1, j + 1 =>
      rw [lcsBack_succ_succ]
      by_cases heq : a.get? i = b.get? j
      · rw [if_pos heq]
        obtain ⟨hb1, hb2, hb3⟩ := ih i j (by omega) (by omega) (by omega)
        refine ⟨?_, ?_, ?_⟩
        · intro k hk
          rcases List.mem_append.1 hk with hk | hk
          · exact Nat.lt_succ_of_lt (hb1 k hk)
          · simp at hk; omega
        · rw [List.chain'_append]
          refine ⟨hb2, List.chain'_singleton _, ?_⟩
          intro x hx y hy
          simp at hy
          subst hy
          exact hb1 x (List.mem_of_mem_getLast? hx)
        · rw [List.map_append]
          have hi' : i < a.length := by omega
          have hj' : j < b.length := by omega
          have : a.take (i + 1) = a.take i ++ [a[i]] := by
            rw [List.take_succ]
            simp [List.getElem?_eq_getElem hi']
          rw [this]
          apply List.Sublist.append hb3
          have hab : a[i] = b[j] := by
            rw [List.get?_eq_getElem?, List.get?_eq_getElem?,
              List.getElem?_eq_getElem hi', List.getElem?_eq_getElem hj'] at heq
            exact Option.some_injective _ heq
          simp [List.getD, List.getElem?_eq_getElem hj', hab]
      · rw [if_neg heq]
        by_cases hdp : lcsDp a b i (j + 1) > lcsDp a b (i + 1) j
        · rw [if_pos hdp]
          obtain ⟨hb1, hb2, hb3⟩ := ih i (j + 1) (by omega) (by omega) (by omega)
          exact ⟨hb1, hb2, hb3.trans (List.take_sublist_take_left a (Nat.le_succ i))⟩
        · rw [if_neg hdp]
          obtain ⟨hb1, hb2, hb3⟩ := ih (i + 1) j (by omega) (by omega) (by omega)
          exact ⟨fun k hk => Nat.lt_succ_of_lt (hb1 k hk), hb2, hb3⟩

-- ===========================================================================
-- Helper lemmas: the change-merging loop of build_changes_from_lcs
-- ===========================================================================

theorem sublist_of_sublist_cons_of_ne {α : Type} {l : List α} {x : α} {r : List α}
    (h : l.Sublist (x :: r)) (hne : ∀ a ∈ l, a ≠ x) : l.Sublist r := by
  rcases List.sublist_cons_iff.1 h with h | ⟨rr, rfl, _⟩
  · exact h
  · exact absurd rfl (hne x (by simp))

theorem sublist_of_cons_sublist_cons {α : Type} {x y : α} {l r : List α}
    (h : (x :: l).Sublist (y :: r)) : l.Sublist r := by
  rcases List.sublist_cons_iff.1 h with h | ⟨rr, heq, hr⟩
  · exact (List.sublist_cons_self x l).trans h
  · cases heq; exact hr

theorem drop_eq_getD_cons {l : List (List Nat)} {n : Nat} (h : n < l.length) :
    l.drop n = l.getD n [] :: l.drop (n + 1) := by
  rw [List.drop_eq_getElem_cons h]
  simp [List.getD, List.getElem?_eq_getElem h]

theorem buildAllChanges_succ (old new : List (List Nat))
    (fuel oldIdx newIdx : Nat) (lcs : List Nat) :
    buildAllChanges old new (fuel + 1) oldIdx newIdx lcs =
      if oldIdx < old.length ∨ newIdx < new.length then
        if lcs.head? = some newIdx then
          .unchanged (new.getD newIdx []) (oldIdx + 1) (newIdx + 1) ::
            buildAllChanges old new fuel (oldIdx + 1) (newIdx + 1) lcs.tail
        else if oldIdx < old.length ∧
            lcs.any (fun k =>
              decide (k < new.length) && decide (old.getD oldIdx [] = new.getD k [])) = false then
          .removed (old.getD oldIdx []) (oldIdx + 1) ::
            buildAllChanges old new fuel (oldIdx + 1) newIdx lcs
        else if newIdx < new.length then
          .added (new.getD newIdx []) (newIdx + 1) ::
            buildAllChanges old new fuel oldIdx (newIdx + 1) lcs
        else []
      else [] := rfl

/-- Invariant of the merging loop: provided the LCS indices are strictly
increasing, within bounds and not yet passed, and their contents form a
subsequence of the remaining old lines, the loop emits `old_line_num`s
(over `Unchanged`+`Removed`) exactly `oldIdx+1, …, old.length`, and
`new_line_num`s (over `Unchanged`+`Added`) exactly `newIdx+1, …,
new.length`. -/
theorem buildAllChanges_nums (old new : List (List Nat)) :
    ∀ fuel oldIdx newIdx lcs,
      (old.length - oldIdx) + (new.length - newIdx) ≤ fuel →
      lcs.Pairwise (· < ·) →
      (∀ k ∈ lcs, newIdx ≤ k ∧ k < new.length) →
      (lcs.map (fun k => new.getD k [])).Sublist (old.drop oldIdx) →
      (buildAllChanges old new fuel oldIdx newIdx lcs).filterMap LineChange.oldNum?
          = List.range' (oldIdx + 1) (old.length - oldIdx)
        ∧ (buildAllChanges old new fuel oldIdx newIdx lcs).filterMap LineChange.newNum?
          = List.range' (newIdx + 1) (new.length - newIdx) := by
  intro fuel
  induction fuel with
  | zero =>
    intro oldIdx newIdx lcs hfuel _ _ _
    have h1 : old.length - oldIdx = 0 := by omega
    have h2 : new.length - newIdx = 0 := by omega
    simp [buildAllChanges, h1, h2]
  | succ fuel ih =>
    intro oldIdx newIdx lcs hfuel hpw hub hsub
    rw [buildAllChanges_succ]
    by_cases hguard : oldIdx < old.length ∨ newIdx < new.length
    · rw [if_pos hguard]
      by_cases hpeek : lcs.head? = some newIdx
      · rw [if_pos hpeek]
        match lcs, hpeek with
        | h :: t, hpeek =>
          simp only [List.tail_cons]
          have hh : h = newIdx := by simpa using hpeek
          subst hh
          have hnlt : h < new.length := (hub h (by simp)).2
          have holt : oldIdx < old.length := by
            by_contra hc
            have : old.drop oldIdx = [] := List.drop_eq_nil_iff.2 (by omega)
            rw [this] at hsub
            simp at hsub
          have hrec := ih (oldIdx + 1) (h + 1) t (by omega)
            (List.Pairwise.of_cons hpw)
            (fun k hk => ⟨(List.pairwise_cons.1 hpw).1 k hk, (hub k (by simp [hk])).2⟩)
            (by
              have := hsub
              rw [drop_eq_getD_cons holt] at this
              exact sublist_of_cons_sublist_cons (by simpa using this))
          refine ⟨?_, ?_⟩
          · rw [List.filterMap_cons]
            simp only [LineChange.oldNum?]
            rw [show old.length - oldIdx = (old.length - (oldIdx + 1)) + 1 by omega,
              List.range'_succ]
            rw [hrec.1]
          · rw [List.filterMap_cons]
            simp only [LineChange.newNum?]
            rw [show new.length - h = (new.length - (h + 1)) + 1 by omega,
              List.range'_succ]
            rw [hrec.2]
      · rw [if_neg hpeek]
        by_cases hrem : oldIdx < old.length ∧
            lcs.any (fun k =>
              decide (k < new.length) && decide (old.getD oldIdx [] = new.getD k [])) = false
        · rw [if_pos hrem]
          obtain ⟨holt, hany⟩ := hrem
          have hne : ∀ a ∈ lcs.map (fun k => new.getD k []), a ≠ old.getD oldIdx [] := by
            intro a ha
            obtain ⟨k, hk, rfl⟩ := List.mem_map.1 ha
            have hkn : k < new.length := (hub k hk).2
            intro hc
            have hb := List.any_eq_false.1 hany k hk
            have hbt : (decide (k < new.length) &&
                decide (old.getD oldIdx [] = new.getD k [])) = true := by
              simp only [Bool.and_eq_true, decide_eq_true_eq]
              exact ⟨hkn, hc.symm⟩
            rw [hbt] at hb
            exact hb rfl
          have hsub' : (lcs.map (fun k => new.getD k [])).Sublist (old.drop (oldIdx + 1)) := by
            have := hsub
            rw [drop_eq_getD_cons holt] at this
            exact sublist_of_sublist_cons_of_ne this hne
          have hrec := ih (oldIdx + 1) newIdx lcs (by omega) hpw hub hsub'
          refine ⟨?_, ?_⟩
          · rw [List.filterMap_cons]
            simp only [LineChange.oldNum?]
            rw [show old.length - oldIdx = (old.length - (oldIdx + 1)) + 1 by omega,
              List.range'_succ]
            rw [hrec.1]
          · rw [List.filterMap_cons]
            simp only [LineChange.newNum?]
            rw [hrec.2]
        · rw [if_neg hrem]
          by_cases hadd : newIdx < new.length
          · rw [if_pos hadd]
            have hub' : ∀ k ∈ lcs, newIdx + 1 ≤ k ∧ k < new.length := by
              intro k hk
              refine ⟨?_, (hub k hk).2⟩
              match lcs, hk, hpw, hpeek, hub with
              | h :: t, hk, hpw, hpeek, hub =>
                have hh : h ≠ newIdx := by
                  intro hc
                  exact hpeek (by simp [hc])
                have hhge : newIdx ≤ h := (hub h (by simp)).1
                rcases List.mem_cons.1 hk with hk | hk
                · omega
                · have := (List.pairwise_cons.1 hpw).1 k hk
                  omega
            have hrec := ih oldIdx (newIdx + 1) lcs (by omega) hpw hub' hsub
            refine ⟨?_, ?_⟩
            · rw [List.filterMap_cons]
              simp only [LineChange.oldNum?]
              rw [hrec.1]
            · rw [List.filterMap_cons]
              simp only [LineChange.newNum?]
              rw [show new.length - newIdx = (new.length - (newIdx + 1)) + 1 by omega,
                List.range'_succ]
              rw [hrec.2]
          · rw [if_neg hadd]
            exfalso
            have hnle : new.length ≤ newIdx := by omega
            have holt : oldIdx < old.length := by
              rcases hguard with h | h
              · exact h
              · omega
            have hany : lcs.any (fun k =>
                decide (k < new.length) && decide (old.getD oldIdx [] = new.getD k [])) = true := by
              by_contra hc
              exact hrem ⟨holt, by simpa using hc⟩
            obtain ⟨k, hk, hkp⟩ := List.any_eq_true.1 hany
            have hkn : k < new.length := by
              by_contra hc
              simp [hc] at hkp
            have := (hub k hk).1
            omega
    · rw [if_neg hguard]
      have h1 : old.length - oldIdx = 0 := by omega
      have h2 : new.length - newIdx = 0 := by omega
      simp [h1, h2]

/-- C1: for every pair of input strings, `diff_text` under an unlimited
("show all") context configuration produces a change sequence whose
`old_line_num`s over `Unchanged`+`Removed` entries, in emission order, are
exactly `1, 2, …, old_line_count` (hence strictly increasing and spanning
exactly `1..=old_line_count`), and symmetrically whose `new_line_num`s over
`Unchanged`+`Added` entries are exactly `1, 2, …, new_line_count`. -/
theorem C1_diff_text_line_numbers (old new : List Nat) (config : DiffConfig)
    (h : config.context_lines = USIZE_MAX) :
    (diff_text old new config).changes.filterMap LineChange.oldNum?
        = List.range' 1 (diff_text old new config).old_line_count
      ∧ (diff_text old new config).changes.filterMap LineChange.newNum?
        = List.range' 1 (diff_text old new config).new_line_count := by
  have props := lcsBack_props (splitLines old) (splitLines new) []
    ((splitLines old).length + (splitLines new).length)
    (splitLines old).length (splitLines new).length (le_refl _) (le_refl _) (le_refl _)
  obtain ⟨hb1, hb2, hb3⟩ := props
  have hnums := buildAllChanges_nums (splitLines old) (splitLines new)
    ((splitLines old).length + (splitLines new).length +
      (lcsBack (splitLines old) (splitLines new)
        (splitLines old).length (splitLines new).length).length + 1)
    0 0
    (lcsBack (splitLines old) (splitLines new)
      (splitLines old).length (splitLines new).length)
    (by omega)
    (List.chain'_iff_pairwise.1 hb2)
    (fun k hk => ⟨Nat.zero_le k, hb1 k hk⟩)
    (by simpa using hb3)
  simp only [diff_text, build_changes_from_lcs, compute_lcs, h, if_pos, if_true,
    Nat.sub_zero, Nat.zero_add] at hnums ⊢
  simpa using hnums

/-- Witness for C1 at a concrete input. -/
theorem C1_diff_text_line_numbers_witness :
    (diff_text (ascii ("a\nb")) (ascii ("a\nc")) DiffConfig.default).changes.filterMap
        LineChange.oldNum?
        = List.range' 1 (diff_text (ascii ("a\nb")) (ascii ("a\nc"))
            DiffConfig.default).old_line_count
      ∧ (diff_text (ascii ("a\nb")) (ascii ("a\nc")) DiffConfig.default).changes.filterMap
        LineChange.newNum?
        = List.range' 1 (diff_text (ascii ("a\nb")) (ascii ("a\nc"))
            DiffConfig.default).new_line_count :=
  C1_diff_text_line_numbers (ascii ("a\nb")) (ascii ("a\nc")) DiffConfig.default rfl

-- ===========================================================================
-- C5: name validation
-- ===========================================================================

theorem containsSeq2_spec (x y : Nat) :
    ∀ l : List Nat, containsSeq2 x y l = true ↔ [x, y] <:+: l := by
  intro l
  induction l with
  | nil => simp [containsSeq2]
  | cons a t ih =>
    match t, ih with
    | [], _ =>
      simp only [containsSeq2, Bool.false_eq_true, false_iff]
      intro h
      have := h.length_le
      simp at this
    | b :: rest, ih =>
      constructor
      · intro h
        simp only [containsSeq2, Bool.or_eq_true, Bool.and_eq_true, decide_eq_true_eq] at h
        rcases h with ⟨rfl, rfl⟩ | h
        · exact ⟨[], rest, by simp⟩
        · exact List.infix_cons (ih.1 h)
      · intro h
        simp only [containsSeq2, Bool.or_eq_true, Bool.and_eq_true, decide_eq_true_eq]
        rcases List.infix_cons_iff.1 h with h | h
        · rcases List.cons_prefix_cons.1 h with ⟨rfl, h2⟩
          rcases List.cons_prefix_cons.1 h2 with ⟨rfl, _⟩
          exact Or.inl ⟨rfl, rfl⟩
        · exact Or.inr (ih.2 h)

/-- C5: `validate_name` succeeds exactly on non-empty names that do not
contain the substring `".."` and whose every byte is an ASCII alphanumeric
or one of `-`, `_`, `.`; the claim's concrete examples hold; and a name that
fails validation makes every store operation fail with that very error,
before any file-system access (the returned store state is untouched). -/
theorem C5_validate_name_spec :
    (∀ name : List Nat,
      validate_name name = .ok () ↔
        (name ≠ [] ∧ ¬ ([46, 46] <:+: name) ∧ ∀ b ∈ name, isNameByte b = true))
    ∧ validate_name (ascii ("../x")) = .error .invalidName
    ∧ validate_name (ascii ("a/b")) = .error .invalidName
    ∧ validate_name (ascii ("a\x00b")) = .error .invalidName
    ∧ validate_name (ascii ("")) = .error .invalidName
    ∧ validate_name (ascii ("a-b_c.d")) = .ok ()
    ∧ ∀ (name : List Nat) (e : SnapshotError), validate_name name = .error e →
        (∀ store content config now, create store name content config now = .error e)
        ∧ (∀ store, SnapshotStore.read store name = .error e)
        ∧ (∀ store content config now, update store name content config now = .error e)
        ∧ (∀ store, delete store name = .error e)
        ∧ (∀ ord store actual config now, check ord store name actual config now = .error e) := by
  refine ⟨?_, by decide, by decide, by decide, by decide, by decide, ?_⟩
  · intro name
    simp only [validate_name]
    constructor
    · intro h
      by_cases h1 : name.isEmpty = true
      · rw [if_pos h1] at h
        exact absurd h (by simp)
      rw [if_neg h1] at h
      by_cases h2 : (containsSeq2 46 46 name || name.contains 47 ||
          name.contains 92) = true
      · rw [if_pos h2] at h
        exact absurd h (by simp)
      rw [if_neg h2] at h
      by_cases h3 : name.contains 0 = true
      · rw [if_pos h3] at h
        exact absurd h (by simp)
      rw [if_neg h3] at h
      by_cases h4 : name.all isNameByte = true
      · refine ⟨?_, ?_, List.all_eq_true.1 h4⟩
        · intro hc
          subst hc
          simp at h1
        · intro hc
          apply h2
          simp only [Bool.or_eq_true]
          exact Or.inl (Or.inl ((containsSeq2_spec 46 46 name).2 hc))
      · rw [if_neg h4] at h
        exact absurd h (by simp)
    · rintro ⟨h1, h2, h3⟩
      have hall : name.all isNameByte = true := List.all_eq_true.2 h3
      have hno : ∀ c, isNameByte c = false → ¬ (name.contains c = true) := by
        intro c hc hin
        have h' := h3 c (List.elem_iff.1 hin)
        rw [h'] at hc
        cases hc
      have c1 : ¬ (name.isEmpty = true) := by simp [h1]
      have c2 : ¬ ((containsSeq2 46 46 name || name.contains 47 ||
          name.contains 92) = true) := by
        simp only [Bool.or_eq_true, not_or]
        exact ⟨⟨fun hc => h2 ((containsSeq2_spec 46 46 name).1 hc),
          hno 47 (by decide)⟩, hno 92 (by decide)⟩
      have c3 : ¬ (name.contains 0 = true) := hno 0 (by decide)
      rw [if_neg c1, if_neg c2, if_neg c3, if_pos hall]
  · intro name e h
    refine ⟨?_, ?_, ?_, ?_, ?_⟩
    · intro store content config now
      simp [create, h]
    · intro store
      simp [SnapshotStore.read, h]
    · intro store content config now
      simp [update, h]
    · intro store
      simp [delete, h]
    · intro ord store actual config now
      simp [check, SnapshotStore.read, h]

/-- Witness for the conditional part of C5 at a concrete invalid name. -/
theorem C5_validate_name_spec_witness :
    create [] (ascii ("../x")) (ascii ("hi")) SnapshotConfig.default 0 =
      .error .invalidName :=
  (C5_validate_name_spec.2.2.2.2.2.2 (ascii ("../x")) .invalidName
    (by decide)).1 [] (ascii ("hi")) SnapshotConfig.default 0

-- ===========================================================================
-- C8: content classification
-- ===========================================================================

theorem detectByContent_characterization (content : List Nat) :
    (detectByContent content = .Text ↔
        ∃ cs, utf8Decode content = some cs ∧ 0 < cs.length ∧
          95 * cs.length ≤ 100 * printableCount cs)
      ∧ (detectByContent content = .Binary ↔
        ¬ ∃ cs, utf8Decode content = some cs ∧ 0 < cs.length ∧
          95 * cs.length ≤ 100 * printableCount cs) := by
  cases hdec : utf8Decode content with
  | none => simp [detectByContent, hdec]
  | some cs =>
    have hcond : (0 < cs.length ∧ printableCount cs * 100 / cs.length ≥ 95) ↔
        (0 < cs.length ∧ 95 * cs.length ≤ 100 * printableCount cs) := by
      constructor
      · rintro ⟨hl, hd⟩
        refine ⟨hl, ?_⟩
        have := (Nat.le_div_iff_mul_le hl).1 hd
        omega
      · rintro ⟨hl, hd⟩
        refine ⟨hl, ?_⟩
        apply (Nat.le_div_iff_mul_le hl).2
        omega
    by_cases hc : 0 < cs.length ∧ printableCount cs * 100 / cs.length ≥ 95
    · constructor
      · simp only [detectByContent, hdec, if_pos hc]
        exact ⟨fun _ => ⟨cs, rfl, hcond.1 hc⟩, fun _ => trivial⟩
      · simp only [detectByContent, hdec, if_pos hc]
        constructor
        · intro h
          cases h
        · intro h
          exact absurd ⟨cs, rfl, hcond.1 hc⟩ h
    · constructor
      · simp only [detectByContent, hdec, if_neg hc]
        constructor
        · intro h
          cases h
        · rintro ⟨cs', hcs', h1, h2⟩
          cases hcs'
          exact absurd (hcond.2 ⟨h1, h2⟩) hc
      · simp only [detectByContent, hdec, if_neg hc]
        refine ⟨fun _ => ?_, fun _ => trivial⟩
        rintro ⟨cs', hcs', h1, h2⟩
        cases hcs'
        exact absurd (hcond.2 ⟨h1, h2⟩) hc

/-- C8 (amended): with extension hint `json` (after lowercasing) the
classifier returns `Json` regardless of content; with no hint, or a hint
outside the recognized lists, it returns `Text` exactly when the buffer
decodes as UTF-8 to a *non-empty* character list of which at least 95% are
non-control or newline/carriage-return/tab, and `Binary` otherwise
(including on decode failure).  The claim as stated omits the non-emptiness
condition; see the counterexample. -/
theorem C8_detect_file_type_spec (content : List Nat) (extension : Option (List Nat)) :
    (∀ e, extension = some e → asciiLower e = ascii ("json") →
        detect_file_type content extension = .Json)
    ∧ ((extension = none ∨ ∃ e, extension = some e ∧ asciiLower e ≠ ascii ("json") ∧
          ¬ asciiLower e ∈ textExtensions) →
        ((detect_file_type content extension = .Text ↔
            ∃ cs, utf8Decode content = some cs ∧ 0 < cs.length ∧
              95 * cs.length ≤ 100 * printableCount cs)
          ∧ (detect_file_type content extension = .Binary ↔
            ¬ ∃ cs, utf8Decode content = some cs ∧ 0 < cs.length ∧
              95 * cs.length ≤ 100 * printableCount cs))) := by
  constructor
  · intro e he hj
    subst he
    simp [detect_file_type, hj]
  · intro hh
    have hred : detect_file_type content extension = detectByContent content := by
      rcases hh with rfl | ⟨e, rfl, h1, h2⟩
      · rfl
      · simp only [detect_file_type]
        rw [if_neg h1, if_neg (by simpa using h2)]
    rw [hred]
    exact detectByContent_characterization content

/-- Counterexample to C8 as stated: the empty buffer decodes as UTF-8 and
(vacuously) satisfies the 95%-printable condition, so the claimed
equivalence predicts `Text`, but `detect_file_type` classifies it as
`Binary` (the code requires `total_chars > 0`). -/
theorem C8_counterexample :
    (∃ cs, utf8Decode ([] : List Nat) = some cs ∧
        95 * cs.length ≤ 100 * printableCount cs)
    ∧ detect_file_type [] none ≠ .Text
    ∧ detect_file_type [] none = .Binary :=
  ⟨⟨[], rfl, by decide⟩, by decide, by decide⟩

/-- Witness for C8 at concrete inputs. -/
theorem C8_detect_file_type_spec_witness :
    detect_file_type (ascii ("hello world")) none = .Text :=
  ((C8_detect_file_type_spec (ascii ("hello world")) none).2 (Or.inl rfl)).1.mpr
    ⟨ascii ("hello world"), by decide, by decide, by decide⟩

-- ===========================================================================
-- C7: duplicate object keys are resolved to the first entry
-- ===========================================================================

theorem hashSetKeys_skip :
    ∀ (X B seen : List (List Nat)), (∀ x ∈ X, x ∈ seen) →
      hashSetKeys seen (X ++ B) = hashSetKeys seen B := by
  intro X
  induction X with
  | nil => intro B seen _; rfl
  | cons x X ih =>
    intro B seen h
    have hx : x ∈ seen := h x (by simp)
    simp only [List.cons_append, hashSetKeys, if_pos hx]
    exact ih B seen (fun y hy => h y (by simp [hy]))

theorem hashSetKeys_mid :
    ∀ (A : List (List Nat)) (seen X B : List (List Nat)),
      (∀ x ∈ X, x ∈ A ∨ x ∈ seen) →
      hashSetKeys seen (A ++ (X ++ B)) = hashSetKeys seen (A ++ B) := by
  intro A
  induction A with
  | nil =>
    intro seen X B h
    exact hashSetKeys_skip X B seen (fun x hx => (h x hx).resolve_left (by simp))
  | cons a A ih =>
    intro seen X B h
    by_cases ha : a ∈ seen
    · simp only [List.cons_append, hashSetKeys, if_pos ha]
      refine ih seen X B (fun x hx => ?_)
      rcases h x hx with hx' | hx'
      · rcases List.mem_cons.1 hx' with rfl | hx'
        · exact Or.inr ha
        · exact Or.inl hx'
      · exact Or.inr hx'
    · have harg : ∀ x ∈ X, x ∈ A ∨ x ∈ a :: seen := by
        intro x hx
        rcases h x hx with hx' | hx'
        · rcases List.mem_cons.1 hx' with rfl | hx'
          · exact Or.inr (by simp)
          · exact Or.inl hx'
        · exact Or.inr (by simp [hx'])
      simp only [List.cons_append, hashSetKeys, if_neg ha]
      exact congrArg (fun l => a :: l) (ih (a :: seen) X B harg)

theorem dedupFirst_append_mid (A X B : List (List Nat)) (h : ∀ x ∈ X, x ∈ A) :
    dedupFirst (A ++ (X ++ B)) = dedupFirst (A ++ B) :=
  hashSetKeys_mid A [] X B (fun x hx => Or.inl (h x hx))

theorem find?_key_append_of_sub {o e : List (List Nat × JsonValue)}
    (h : ∀ k ∈ e.map Prod.fst, k ∈ o.map Prod.fst) (key : List Nat) :
    (o ++ e).find? (fun p => p.1 == key) = o.find? (fun p => p.1 == key) := by
  rw [List.find?_append]
  cases hfo : o.find? (fun p => p.1 == key) with
  | some v => rfl
  | none =>
    have he : e.find? (fun p => p.1 == key) = none := by
      rw [List.find?_eq_none]
      intro p hp hbeq
      have hk : p.1 = key := by simpa using hbeq
      have hmem : key ∈ o.map Prod.fst := h key (hk ▸ List.mem_map_of_mem Prod.fst hp)
      obtain ⟨q, hq, hqk⟩ := List.mem_map.1 hmem
      have := List.find?_eq_none.1 hfo q hq
      simp [hqk] at this
    simp [he]

theorem dedupEntriesGo_keys :
    ∀ (l : List (List Nat × JsonValue)) (seen : List (List Nat)),
      (dedupEntriesGo seen l).map Prod.fst
        = hashSetKeys seen (l.map Prod.fst) := by
  intro l
  induction l with
  | nil => intro seen; rfl
  | cons p l ih =>
    intro seen
    rw [dedupEntriesGo, List.map_cons, hashSetKeys]
    by_cases hp : p.1 ∈ seen
    · rw [if_pos hp, if_pos hp, ih]
    · rw [if_neg hp, if_neg hp, List.map_cons, ih]

theorem hashSetKeys_idem_left :
    ∀ (A : List (List Nat)) (seen B : List (List Nat)),
      hashSetKeys seen (hashSetKeys seen A ++ B)
        = hashSetKeys seen (A ++ B) := by
  intro A
  induction A with
  | nil => intro seen B; rfl
  | cons a A ih =>
    intro seen B
    by_cases ha : a ∈ seen
    · have hL : hashSetKeys seen (a :: A) = hashSetKeys seen A := by
        rw [hashSetKeys, if_pos ha]
      have hR : hashSetKeys seen (a :: (A ++ B)) = hashSetKeys seen (A ++ B) := by
        rw [hashSetKeys, if_pos ha]
      rw [List.cons_append, hL, hR, ih]
    · have hL : hashSetKeys seen (a :: A) = a :: hashSetKeys (a :: seen) A := by
        rw [hashSetKeys, if_neg ha]
      rw [List.cons_append, hL, List.cons_append]
      have h2 : hashSetKeys seen (a :: (hashSetKeys (a :: seen) A ++ B))
          = a :: hashSetKeys (a :: seen) (hashSetKeys (a :: seen) A ++ B) := by
        rw [hashSetKeys, if_neg ha]
      have h3 : hashSetKeys seen (a :: (A ++ B))
          = a :: hashSetKeys (a :: seen) (A ++ B) := by
        rw [hashSetKeys, if_neg ha]
      rw [h2, h3, ih]

theorem hashSetKeys_inner :
    ∀ (B : List (List Nat)) (s t : List (List Nat)), (∀ x ∈ t, x ∈ s) →
      hashSetKeys s (hashSetKeys t B) = hashSetKeys s B := by
  intro B
  induction B with
  | nil => intro s t _; rfl
  | cons b B ih =>
    intro s t h
    by_cases hbt : b ∈ t
    · have h1 : hashSetKeys t (b :: B) = hashSetKeys t B := by
        rw [hashSetKeys, if_pos hbt]
      have h2 : hashSetKeys s (b :: B) = hashSetKeys s B := by
        rw [hashSetKeys, if_pos (h b hbt)]
      rw [h1, h2, ih s t h]
    · have h1 : hashSetKeys t (b :: B) = b :: hashSetKeys (b :: t) B := by
        rw [hashSetKeys, if_neg hbt]
      rw [h1]
      by_cases hbs : b ∈ s
      · have h2 : hashSetKeys s (b :: hashSetKeys (b :: t) B)
            = hashSetKeys s (hashSetKeys (b :: t) B) := by
          rw [hashSetKeys, if_pos hbs]
        have h3 : hashSetKeys s (b :: B) = hashSetKeys s B := by
          rw [hashSetKeys, if_pos hbs]
        have hsub : ∀ x ∈ b :: t, x ∈ s := by
          intro x hx
          rcases List.mem_cons.1 hx with rfl | hx2
          · exact hbs
          · exact h x hx2
        rw [h2, h3, ih s (b :: t) hsub]
      · have h2 : hashSetKeys s (b :: hashSetKeys (b :: t) B)
            = b :: hashSetKeys (b :: s) (hashSetKeys (b :: t) B) := by
          rw [hashSetKeys, if_neg hbs]
        have h3 : hashSetKeys s (b :: B) = b :: hashSetKeys (b :: s) B := by
          rw [hashSetKeys, if_neg hbs]
        have hsub : ∀ x ∈ b :: t, x ∈ b :: s := by
          intro x hx
          rcases List.mem_cons.1 hx with rfl | hx2
          · exact List.mem_cons_self _ _
          · exact List.mem_cons_of_mem _ (h x hx2)
        rw [h2, h3, ih (b :: s) (b :: t) hsub]

theorem hashSetKeys_dedup_right :
    ∀ (A : List (List Nat)) (seen B : List (List Nat)),
      hashSetKeys seen (A ++ dedupFirst B) = hashSetKeys seen (A ++ B) := by
  intro A
  induction A with
  | nil =>
    intro seen B
    simp only [List.nil_append]
    exact hashSetKeys_inner B seen [] (by intro x hx; simp at hx)
  | cons a A ih =>
    intro seen B
    rw [List.cons_append, List.cons_append]
    by_cases ha : a ∈ seen
    · have h1 : hashSetKeys seen (a :: (A ++ dedupFirst B))
          = hashSetKeys seen (A ++ dedupFirst B) := by
        rw [hashSetKeys, if_pos ha]
      have h2 : hashSetKeys seen (a :: (A ++ B))
          = hashSetKeys seen (A ++ B) := by
        rw [hashSetKeys, if_pos ha]
      rw [h1, h2, ih]
    · have h1 : hashSetKeys seen (a :: (A ++ dedupFirst B))
          = a :: hashSetKeys (a :: seen) (A ++ dedupFirst B) := by
        rw [hashSetKeys, if_neg ha]
      have h2 : hashSetKeys seen (a :: (A ++ B))
          = a :: hashSetKeys (a :: seen) (A ++ B) := by
        rw [hashSetKeys, if_neg ha]
      rw [h1, h2, ih]

theorem dedupEntries_keys_eq (o n : List (List Nat × JsonValue)) :
    dedupFirst ((dedupEntries o).map Prod.fst
        ++ (dedupEntries n).map Prod.fst)
      = dedupFirst (o.map Prod.fst ++ n.map Prod.fst) := by
  unfold dedupEntries dedupFirst
  rw [dedupEntriesGo_keys o [], dedupEntriesGo_keys n []]
  rw [hashSetKeys_idem_left]
  have h := hashSetKeys_dedup_right (o.map Prod.fst) [] (n.map Prod.fst)
  unfold dedupFirst at h
  rw [h]

theorem dedupEntriesGo_find? :
    ∀ (l : List (List Nat × JsonValue)) (seen : List (List Nat))
      (key : List Nat), key ∉ seen →
      (dedupEntriesGo seen l).find? (fun p => p.1 == key)
        = l.find? (fun p => p.1 == key) := by
  intro l
  induction l with
  | nil => intro seen key _; rfl
  | cons p l ih =>
    intro seen key hk
    by_cases hp : p.1 ∈ seen
    · have h1 : dedupEntriesGo seen (p :: l) = dedupEntriesGo seen l := by
        rw [dedupEntriesGo, if_pos hp]
      rw [h1, ih seen key hk]
      have hne : ¬((fun q : List Nat × JsonValue => q.1 == key) p = true) := by
        simp only [beq_iff_eq]
        intro he
        exact hk (he ▸ hp)
      rw [@List.find?_cons_of_neg _ (fun q => q.1 == key) p l hne]
    · have h1 : dedupEntriesGo seen (p :: l)
          = p :: dedupEntriesGo (p.1 :: seen) l := by
        rw [dedupEntriesGo, if_neg hp]
      rw [h1]
      by_cases hpk : ((fun q : List Nat × JsonValue => q.1 == key) p = true)
      · rw [@List.find?_cons_of_pos _ (fun q => q.1 == key) p
          (dedupEntriesGo (p.1 :: seen) l) hpk,
          @List.find?_cons_of_pos _ (fun q => q.1 == key) p l hpk]
      · rw [@List.find?_cons_of_neg _ (fun q => q.1 == key) p
          (dedupEntriesGo (p.1 :: seen) l) hpk,
          @List.find?_cons_of_neg _ (fun q => q.1 == key) p l hpk]
        apply ih
        intro hmem
        rcases List.mem_cons.1 hmem with rfl | h2
        · exact hpk (by simp)
        · exact hk h2

theorem dedupEntries_find? (l : List (List Nat × JsonValue)) (key : List Nat) :
    (dedupEntries l).find? (fun p => p.1 == key)
      = l.find? (fun p => p.1 == key) :=
  dedupEntriesGo_find? l [] key (by simp)

/-- **C7**: later duplicate keys are invisible to the structural differ:
comparing two `Object` values emits exactly the changes of comparing their
first-occurrence-per-key restrictions — each key of the union is resolved
on each side by `find?` (the model of `iter().find()`) to the *first*
entry bearing it in insertion order, so entries after the first with the
same key, wherever they sit in the object, have no effect on the emitted
changes. -/
theorem C7_duplicate_keys_invisible
    (ord : List (List Nat) → List (List Nat)) (fuel : Nat) (path : List Nat)
    (o n : List (List Nat × JsonValue)) :
    compare_json_values ord fuel path (.obj o) (.obj n)
      = compare_json_values ord fuel path
          (.obj (dedupEntries o)) (.obj (dedupEntries n)) := by
  cases fuel with
  | zero => rfl
  | succ fuel =>
    simp only [compare_json_values]
    rw [dedupEntries_keys_eq]
    apply congrArg
    funext key
    rw [dedupEntries_find? o key, dedupEntries_find? n key]

/-- Witness for C7 at a concrete comparison: a duplicate key in the middle
of the object, followed by a fresh key, is dropped by the
first-occurrence restriction and does not affect the comparison. -/
theorem C7_duplicate_keys_invisible_witness :
    dedupEntries [(ascii ("a"), .bool true), (ascii ("a"), .bool false),
        (ascii ("b"), .bool true)]
      = [(ascii ("a"), .bool true), (ascii ("b"), .bool true)] ∧
    compare_json_values dedupFirst 5 []
        (.obj [(ascii ("a"), .bool true), (ascii ("a"), .bool false),
          (ascii ("b"), .bool true)])
        (.obj [(ascii ("b"), .bool false)])
      = compare_json_values dedupFirst 5 []
        (.obj (dedupEntries [(ascii ("a"), .bool true),
          (ascii ("a"), .bool false), (ascii ("b"), .bool true)]))
        (.obj (dedupEntries [(ascii ("b"), .bool false)])) :=
  ⟨rfl, C7_duplicate_keys_invisible dedupFirst 5 [] _ _⟩

-- ===========================================================================
-- C6: determinism of the structural differ
-- ===========================================================================

/-- Under any two admissible hash-set iteration orders, the structural
comparison emits the same multiset of changes. -/
theorem compare_json_values_perm (ord1 ord2 : List (List Nat) → List (List Nat))
    (h1 : HashOrderOK ord1) (h2 : HashOrderOK ord2) :
    ∀ fuel path old new,
      (compare_json_values ord1 fuel path old new).Perm
        (compare_json_values ord2 fuel path old new) := by
  intro fuel
  induction fuel with
  | zero =>
    intro path old new
    exact List.Perm.refl _
  | succ fuel ih =>
    intro path old new
    cases old <;> cases new <;> try exact List.Perm.refl _
    case array.array old_arr new_arr =>
      simp only [compare_json_values]
      apply List.Perm.flatMap_left
      intro i _
      cases ho : old_arr.get? i <;> cases hn : new_arr.get? i
      · exact List.Perm.refl _
      · exact List.Perm.refl _
      · exact List.Perm.refl _
      · exact ih _ _ _
    case obj.obj old_obj new_obj =>
      simp only [compare_json_values]
      refine List.Perm.trans (List.Perm.flatMap_left _ ?_)
        (List.Perm.flatMap_right _ ((h1 _).trans (h2 _).symm))
      intro key _
      cases hfo : (old_obj.find? (fun p => p.1 == key)).map Prod.snd <;>
        cases hfn : (new_obj.find? (fun p => p.1 == key)).map Prod.snd
      · exact List.Perm.refl _
      · exact List.Perm.refl _
      · exact List.Perm.refl _
      · exact ih _ _ _

/-- C6 (amended): `diff_json` is deterministic only up to the iteration
order of the object-key hash set.  For any two admissible iteration orders
and any inputs, the two runs fail identically or succeed with change
sequences that are permutations of each other (the multiset of change
records is input-determined); the emission order itself is not. -/
theorem C6_diff_json_perm (ord1 ord2 : List (List Nat) → List (List Nat))
    (h1 : HashOrderOK ord1) (h2 : HashOrderOK ord2)
    (old new : List Nat) (config : DiffConfig) :
    exceptPermRel (diff_json ord1 old new config) (diff_json ord2 old new config) := by
  simp only [diff_json]
  cases parse_json old with
  | error e => exact trivial
  | ok old_value =>
    cases parse_json new with
    | error e => exact trivial
    | ok new_value =>
      exact compare_json_values_perm ord1 ord2 h1 h2 _ _ _ _

/-- Counterexample to C6 as stated: two runs on the same parseable inputs,
differing only in the (run-dependent) hash-set iteration order, produce
different `JsonDiffResult`s — the same two `Modified` records, but in
opposite emission orders. -/
theorem C6_counterexample :
    HashOrderOK dedupFirst ∧ HashOrderOK c6ord2 ∧
      diffPaths (diff_json dedupFirst c6old c6new DiffConfig.default) = [[97], [98]] ∧
      diffPaths (diff_json c6ord2 c6old c6new DiffConfig.default) = [[98], [97]] ∧
      diff_json dedupFirst c6old c6new DiffConfig.default ≠
        diff_json c6ord2 c6old c6new DiffConfig.default := by
  refine ⟨fun _ => List.Perm.refl _, fun _ => List.reverse_perm _,
    by decide, by decide, fun hc => ?_⟩
  exact absurd (congrArg diffPaths hc) (by decide)

/-- Witness for C6 (amended) at concrete inputs and orders. -/
theorem C6_diff_json_perm_witness :
    exceptPermRel (diff_json dedupFirst c6old c6new DiffConfig.default)
      (diff_json c6ord2 c6old c6new DiffConfig.default) :=
  C6_diff_json_perm dedupFirst c6ord2 (fun _ => List.Perm.refl _)
    (fun _ => List.reverse_perm _) c6old c6new DiffConfig.default

-- ===========================================================================
-- Helper lemmas: the snapshot envelope reader
-- ===========================================================================

theorem read_line_append (pre rest : List Nat) (h : 10 ∉ pre) :
    read_line (pre ++ 10 :: rest) = (pre ++ [10], rest) := by
  induction pre with
  | nil => simp [read_line]
  | cons b t ih =>
    have hb : b ≠ 10 := by intro hb; exact h (by simp [hb])
    have ht : (10 : Nat) ∉ t := fun hm => h (List.mem_cons_of_mem _ hm)
    simp [read_line, hb, ih ht]

theorem trimAsciiWs_prefix_of_head (b : Nat) (l : List Nat)
    (h : isWSByte b = false) : trimAsciiWs (b :: l) <+: b :: l := by
  unfold trimAsciiWs
  rw [List.dropWhile_cons, if_neg (by simp [h])]
  have hs : (b :: l).reverse.dropWhile isWSByte <:+ (b :: l).reverse :=
    List.dropWhile_suffix _
  have hs2 : (((b :: l).reverse.dropWhile isWSByte).reverse).reverse
      <:+ (b :: l).reverse := by rwa [List.reverse_reverse]
  exact List.reverse_suffix.mp hs2

theorem trim_hash_ne_sep (t : List Nat) :
    trimAsciiWs (35 :: t) ≠ ascii ("---") := by
  intro h
  have hp := trimAsciiWs_prefix_of_head 35 t (by decide)
  rw [h] at hp
  have hsep : ascii ("---") = 45 :: [45, 45] := by decide
  rw [hsep] at hp
  rcases List.cons_prefix_cons.mp hp with ⟨h45, _⟩
  omega

theorem trimAsciiWs_append_nl (b : Nat) (l : List Nat) (c : Nat)
    (hb : isWSByte b = false) (hc : isWSByte c = false)
    (hlast : (b :: l).getLast? = some c) :
    trimAsciiWs ((b :: l) ++ [10]) = b :: l := by
  unfold trimAsciiWs
  rw [List.cons_append, List.dropWhile_cons, if_neg (by simp [hb])]
  rw [show b :: (l ++ [10]) = (b :: l) ++ [10] from rfl]
  rw [List.reverse_append]
  have h10 : ([10] : List Nat).reverse = [10] := by decide
  rw [h10, List.singleton_append, List.dropWhile_cons, if_pos (by decide)]
  have hhead : (b :: l).reverse.head? = some c := by
    rw [List.head?_reverse]; exact hlast
  cases hrev : (b :: l).reverse with
  | nil => rw [hrev] at hhead; simp at hhead
  | cons x xs =>
    rw [hrev] at hhead
    simp only [List.head?_cons, Option.some.injEq] at hhead
    subst hhead
    rw [List.dropWhile_cons, if_neg (by simp [hc]), ← hrev,
      List.reverse_reverse]

theorem splitColonSpace_append (key value : List Nat) (h : (58 : Nat) ∉ key) :
    splitColonSpace (key ++ 58 :: 32 :: value) = some (key, value) := by
  induction key with
  | nil => simp [splitColonSpace]
  | cons b t ih =>
    have hb : b ≠ 58 := by intro hb; exact h (by simp [hb])
    have ht : (58 : Nat) ∉ t := fun hm => h (List.mem_cons_of_mem _ hm)
    rw [List.cons_append, splitColonSpace.eq_def]
    split
    · next heq => exact absurd heq (by simp)
    · next heq =>
      exfalso
      rcases List.cons.injEq .. ▸ heq with ⟨h1, _⟩
      exact hb h1
    · next heq =>
      rcases List.cons.injEq .. ▸ heq with ⟨h1, h2⟩
      subst h1
      rw [← h2, ih ht]
      rfl

theorem hdrInsert_concat (m : List (List Nat × List Nat)) (k v : List Nat)
    (h : ∀ p ∈ m, p.1 ≠ k) : hdrInsert m k v = m ++ [(k, v)] := by
  unfold hdrInsert
  rw [List.filter_eq_self.mpr]
  intro p hp
  simpa using h p hp

theorem storeLookup_insert (store : Store) (name file : List Nat) :
    storeLookup (storeInsert store name file) name = some file := by
  unfold storeLookup storeInsert
  rw [List.find?_append]
  have h1 : List.find? (fun p => p.1 == name)
      (store.filter (fun p => p.1 != name)) = none := by
    rw [List.find?_eq_none]
    intro p hp
    have h2 := (List.mem_filter.mp hp).2
    simp only [bne_iff_ne, ne_eq] at h2
    simp [h2]
  rw [h1]
  simp [List.find?]

theorem decDigitsGo_eq_digits (fuel : Nat) :
    ∀ n, n ≤ fuel → decDigitsGo fuel n = Nat.digits 10 n := by
  induction fuel with
  | zero =>
    intro n hn
    obtain rfl : n = 0 := by omega
    simp [decDigitsGo]
  | succ f ih =>
    intro n hn
    by_cases h0 : n = 0
    · subst h0; simp [decDigitsGo]
    · rw [decDigitsGo, if_neg h0]
      have hdiv : n / 10 ≤ f := by
        have := Nat.div_lt_self (Nat.pos_of_ne_zero h0) (by norm_num : 1 < 10)
        omega
      rw [ih (n / 10) hdiv]
      exact (Nat.digits_def' (by norm_num : (1 : Nat) < 10)
            (Nat.pos_of_ne_zero h0)).symm

theorem natDecimal_mem (n b : Nat) (h : b ∈ natDecimal n) :
    48 ≤ b ∧ b ≤ 57 := by
  unfold natDecimal at h
  by_cases h0 : n = 0
  · rw [if_pos h0] at h; simp at h; omega
  · rw [if_neg h0, decDigitsGo_eq_digits n n le_rfl] at h
    simp only [List.mem_map, List.mem_reverse] at h
    obtain ⟨d, hd, rfl⟩ := h
    have hlt := Nat.digits_lt_base (by norm_num : (1 : Nat) < 10) hd
    omega

theorem natDecimal_ne_nil (n : Nat) : natDecimal n ≠ [] := by
  unfold natDecimal
  by_cases h0 : n = 0
  · simp [h0]
  · rw [if_neg h0, decDigitsGo_eq_digits n n le_rfl]
    simp only [ne_eq, List.map_eq_nil_iff, List.reverse_eq_nil_iff]
    exact Nat.digits_ne_nil_iff_ne_zero.mpr h0

theorem natDecimal_tokenOK (n : Nat) : headerTokenOK (natDecimal n) := by
  refine ⟨natDecimal_ne_nil n, fun b hb => ?_⟩
  have := natDecimal_mem n b hb
  simp only [isWSByte, Bool.or_eq_false_iff, decide_eq_false_iff_not]
  omega

theorem natDecimal_length_le (n : Nat) (h : n < 2 ^ 64) :
    (natDecimal n).length ≤ 20 := by
  unfold natDecimal
  by_cases h0 : n = 0
  · simp [h0]
  · rw [if_neg h0, decDigitsGo_eq_digits n n le_rfl]
    simp only [List.length_map, List.length_reverse]
    rw [Nat.digits_len 10 n (by norm_num) h0]
    have h2 : n < 10 ^ 20 := lt_of_lt_of_le h (by norm_num)
    have h3 := (Nat.lt_pow_iff_log_lt (by norm_num : (1 : Nat) < 10) h0).mp h2
    omega

theorem digitsVal_aux (l : List Nat) :
    ∀ acc, (l.reverse.map (fun d => d + 48)).foldl
        (fun acc b => acc * 10 + (b - 48)) acc
      = acc * 10 ^ l.length + Nat.ofDigits 10 l := by
  induction l with
  | nil => intro acc; simp [Nat.ofDigits]
  | cons d t ih =>
    intro acc
    simp only [List.reverse_cons, List.map_append, List.foldl_append,
      List.map_cons, List.map_nil, List.foldl_cons, List.foldl_nil]
    rw [ih acc]
    rw [Nat.ofDigits_cons]
    simp only [List.length_cons, Nat.add_sub_cancel]
    ring

theorem digitsVal_natDecimal (n : Nat) : digitsVal (natDecimal n) = n := by
  unfold digitsVal natDecimal
  by_cases h0 : n = 0
  · simp [h0]
  · rw [if_neg h0, decDigitsGo_eq_digits n n le_rfl]
    have h1 := digitsVal_aux (Nat.digits 10 n) 0
    simp only [Nat.zero_mul, Nat.zero_add] at h1
    rw [h1, Nat.ofDigits_digits]

theorem parseU64_natDecimal (n : Nat) (h : n < 2 ^ 64) :
    parseU64 (natDecimal n) = some n := by
  have hne := natDecimal_ne_nil n
  have hd : (if (natDecimal n).head? = some 43 then (natDecimal n).tail
      else natDecimal n) = natDecimal n := by
    rw [if_neg]
    intro hh
    have h43 : (43 : Nat) ∈ natDecimal n := List.mem_of_mem_head? (by simp [hh])
    have := natDecimal_mem n 43 h43
    omega
  unfold parseU64
  simp only [hd]
  rw [if_neg (by simpa [List.isEmpty_iff] using hne)]
  rw [if_pos ?hall]
  case hall =>
    rw [List.all_eq_true]
    intro b hb
    have := natDecimal_mem n b hb
    simp [isDigitByte]; omega
  rw [digitsVal_natDecimal, if_pos h]

theorem compute_hash_length (c : List Nat) : (compute_hash c).length = 16 := by
  simp [compute_hash, natToHex16]

theorem compute_hash_mem (c : List Nat) (b : Nat) (h : b ∈ compute_hash c) :
    (48 ≤ b ∧ b ≤ 57) ∨ (97 ≤ b ∧ b ≤ 102) := by
  unfold compute_hash natToHex16 at h
  simp only [List.mem_map, List.mem_range] at h
  obtain ⟨i, hi, rfl⟩ := h
  unfold hexDigitByte
  have hm : fnv1a c / 16 ^ (15 - i) % 16 < 16 := Nat.mod_lt _ (by norm_num)
  by_cases hlt : fnv1a c / 16 ^ (15 - i) % 16 < 10
  · rw [if_pos hlt]; omega
  · rw [if_neg hlt]; omega

theorem compute_hash_tokenOK (c : List Nat) : headerTokenOK (compute_hash c) := by
  constructor
  · have h16 := compute_hash_length c
    intro hnil
    rw [hnil] at h16
    simp at h16
  · intro b hb
    have := compute_hash_mem c b hb
    simp only [isWSByte, Bool.or_eq_false_iff, decide_eq_false_iff_not]
    omega

theorem fileTypeStr_tokenOK (ft : FileType) : headerTokenOK (fileTypeStr ft) := by
  cases ft <;> exact ⟨by decide, by decide⟩

theorem fileTypeStr_length_le (ft : FileType) : (fileTypeStr ft).length ≤ 6 := by
  cases ft <;> decide

theorem parseTypeValue_fileTypeStr (ft : FileType) :
    parseTypeValue (fileTypeStr ft) = ft := by
  cases ft <;> decide

theorem validate_name_ok_facts (name : List Nat)
    (h : validate_name name = .ok ()) :
    name ≠ [] ∧ name.all isNameByte = true := by
  unfold validate_name at h
  split_ifs at h with h1 h2 h3 h4
  refine ⟨?_, h4⟩
  intro hnil
  rw [hnil] at h1
  simp at h1

theorem isNameByte_token (b : Nat) (h : isNameByte b = true) :
    b ≠ 10 ∧ b ≠ 58 ∧ isWSByte b = false := by
  simp only [isNameByte, Bool.or_eq_true, Bool.and_eq_true,
    decide_eq_true_eq] at h
  simp only [isWSByte, Bool.or_eq_false_iff, decide_eq_false_iff_not]
  omega

theorem validate_name_tokenOK (name : List Nat)
    (h : validate_name name = .ok ()) : headerTokenOK name := by
  obtain ⟨hne, hall⟩ := validate_name_ok_facts name h
  refine ⟨hne, fun b hb => ?_⟩
  exact isNameByte_token b (List.all_eq_true.mp hall b hb)

theorem write_snapshot_length_ge (s : Snapshot) :
    12 ≤ (write_snapshot s).length := by
  have h12 : (ascii ("# Snapshot: ")).length = 12 := by decide
  unfold write_snapshot
  simp only [List.length_append, h12]
  omega

theorem utf8Decode_ascii (l : List Nat) (h : ∀ b ∈ l, b ≤ 127) :
    utf8Decode l = some l := by
  induction l with
  | nil => rfl
  | cons b t ih =>
    rw [utf8Decode.eq_def]
    dsimp only
    rw [if_pos (h b (by simp)), ih (fun x hx => h x (by simp [hx]))]
    rfl

theorem not_isNone_of_isSome {α : Type} (o : Option α) (h : o.isSome = true) :
    ¬(o.isNone = true) := by
  cases o <;> simp_all

theorem isNameByte_le (b : Nat) (h : isNameByte b = true) : b ≤ 127 := by
  simp only [isNameByte, Bool.or_eq_true, Bool.and_eq_true,
    decide_eq_true_eq] at h
  omega

theorem fileTypeStr_ascii (ft : FileType) : ∀ b ∈ fileTypeStr ft, b ≤ 127 := by
  cases ft <;> decide

theorem parse_header_succ (fuel : Nat) (b : Nat) (t : List Nat)
    (header : List (List Nat × List Nat)) (count : Nat) :
    parse_header (fuel + 1) (b :: t) header count
      = (if (utf8Decode (read_line (b :: t)).1).isNone then .error .ioError
         else if (read_line (b :: t)).1.length > MAX_HEADER_LINE_LENGTH then
           .error .corruptedSnapshot
         else if count + 1 > MAX_HEADER_LINES then .error .corruptedSnapshot
         else if trimAsciiWs (read_line (b :: t)).1 = ascii ("---") then
           if (read_line (b :: t)).2.length > MAX_CONTENT_SIZE then
             .error .corruptedSnapshot
           else .ok (header, (read_line (b :: t)).2)
         else parse_header fuel (read_line (b :: t)).2
               (headerLineInsert header (read_line (b :: t)).1) (count + 1)) :=
  rfl

theorem parse_header_unfold (fuel : Nat) (body rest : List Nat)
    (header : List (List Nat × List Nat)) (count : Nat)
    (h10 : (10 : Nat) ∉ body) :
    parse_header (fuel + 1) (body ++ 10 :: rest) header count
      = (if (utf8Decode (body ++ [10])).isNone then .error .ioError
         else if (body ++ [10]).length > MAX_HEADER_LINE_LENGTH then
           .error .corruptedSnapshot
         else if count + 1 > MAX_HEADER_LINES then .error .corruptedSnapshot
         else if trimAsciiWs (body ++ [10]) = ascii ("---") then
           if rest.length > MAX_CONTENT_SIZE then .error .corruptedSnapshot
           else .ok (header, rest)
         else parse_header fuel rest (headerLineInsert header (body ++ [10]))
               (count + 1)) := by
  have hrl := read_line_append body rest h10
  cases body with
  | nil =>
    simp only [List.nil_append] at hrl ⊢
    rw [parse_header_succ, hrl]
  | cons b t =>
    simp only [List.cons_append] at hrl ⊢
    rw [parse_header_succ, hrl]

theorem parse_header_line_step (fuel : Nat) (body rest : List Nat)
    (header : List (List Nat × List Nat)) (count : Nat)
    (h10 : (10 : Nat) ∉ body)
    (hutf : (utf8Decode (body ++ [10])).isSome = true)
    (hlen : body.length + 1 ≤ MAX_HEADER_LINE_LENGTH)
    (hcount : count + 1 ≤ MAX_HEADER_LINES)
    (hsep : trimAsciiWs (body ++ [10]) ≠ ascii ("---")) :
    parse_header (fuel + 1) (body ++ 10 :: rest) header count
      = parse_header fuel rest (headerLineInsert header (body ++ [10]))
          (count + 1) := by
  rw [parse_header_unfold fuel body rest header count h10]
  rw [if_neg (not_isNone_of_isSome _ hutf), if_neg ?l1, if_neg ?l2,
    if_neg hsep]
  case l1 =>
    simp only [List.length_append, List.length_cons, List.length_nil]
    omega
  case l2 => omega

theorem parse_header_line_long (fuel : Nat) (body rest : List Nat)
    (header : List (List Nat × List Nat)) (count : Nat)
    (h10 : (10 : Nat) ∉ body)
    (hutf : (utf8Decode (body ++ [10])).isSome = true)
    (hlen : body.length + 1 > MAX_HEADER_LINE_LENGTH) :
    parse_header (fuel + 1) (body ++ 10 :: rest) header count
      = .error .corruptedSnapshot := by
  rw [parse_header_unfold fuel body rest header count h10]
  rw [if_neg (not_isNone_of_isSome _ hutf)]
  rw [if_pos (by simp only [List.length_append, List.length_cons,
    List.length_nil]; omega)]

theorem parse_header_sep (fuel : Nat) (content : List Nat)
    (header : List (List Nat × List Nat)) (count : Nat) :
    parse_header (fuel + 1) (45 :: 45 :: 45 :: 10 :: content) header count
      = if count + 1 > MAX_HEADER_LINES then .error .corruptedSnapshot
        else if content.length > MAX_CONTENT_SIZE then .error .corruptedSnapshot
        else .ok (header, content) := by
  show parse_header (fuel + 1) ([45, 45, 45] ++ 10 :: content) header count = _
  rw [parse_header_unfold fuel [45, 45, 45] content header count (by decide)]
  rw [if_neg (by decide), if_neg (by decide)]
  by_cases hc : count + 1 > MAX_HEADER_LINES
  · rw [if_pos hc, if_pos hc]
  · rw [if_neg hc, if_neg hc]
    rw [if_pos (show trimAsciiWs ([45, 45, 45] ++ [10]) = ascii ("---")
      by decide)]

theorem headerLineInsert_hline (header : List (List Nat × List Nat))
    (key value : List Nat) (hkey : headerTokenOK key)
    (hval : headerTokenOK value) :
    headerLineInsert header ((35 :: 32 :: (key ++ 58 :: 32 :: value)) ++ [10])
      = hdrInsert header key value := by
  have hsh : (35 :: 32 :: (key ++ 58 :: 32 :: value)) ++ [10]
      = 35 :: 32 :: (key ++ 58 :: 32 :: (value ++ [10])) := by simp
  rw [hsh]
  rw [headerLineInsert]
  have htrim : trimAsciiWs (key ++ 58 :: 32 :: (value ++ [10]))
      = key ++ 58 :: 32 :: value := by
    obtain ⟨hkne, hkprops⟩ := hkey
    obtain ⟨hvne, hvprops⟩ := hval
    cases key with
    | nil => exact absurd rfl hkne
    | cons kb kt =>
      have heq : (kb :: kt) ++ 58 :: 32 :: (value ++ [10])
          = (kb :: (kt ++ 58 :: 32 :: value)) ++ [10] := by simp
      rw [heq]
      have hbne : isWSByte kb = false := (hkprops kb (by simp)).2.2
      have hlast1 : value.getLast? = some (value.getLast hvne) :=
        List.getLast?_eq_getLast value hvne
      have hcws : isWSByte (value.getLast hvne) = false :=
        (hvprops _ (List.getLast_mem hvne)).2.2
      have hlast2 : (kb :: (kt ++ 58 :: 32 :: value)).getLast?
          = some (value.getLast hvne) := by
        rw [show kb :: (kt ++ 58 :: 32 :: value)
            = ((kb :: kt) ++ [58, 32]) ++ value by simp]
        rw [List.getLast?_append, hlast1]
        rfl
      rw [trimAsciiWs_append_nl kb (kt ++ 58 :: 32 :: value)
        (value.getLast hvne) hbne hcws hlast2]
      simp
  rw [htrim]
  have hk58 : (58 : Nat) ∉ key := by
    intro hm
    exact (hkey.2 58 hm).2.1 rfl
  rw [splitColonSpace_append key value hk58]

theorem parse_header_hline (fuel : Nat) (key value rest : List Nat)
    (header : List (List Nat × List Nat)) (count : Nat)
    (hkey : headerTokenOK key) (hval : headerTokenOK value)
    (hk7 : ∀ b ∈ key, b ≤ 127) (hv7 : ∀ b ∈ value, b ≤ 127)
    (hlen : key.length + value.length + 5 ≤ MAX_HEADER_LINE_LENGTH)
    (hcount : count + 1 ≤ MAX_HEADER_LINES) :
    parse_header (fuel + 1)
        (35 :: 32 :: (key ++ 58 :: 32 :: (value ++ 10 :: rest))) header count
      = parse_header fuel rest (hdrInsert header key value) (count + 1) := by
  have hbs : 35 :: 32 :: (key ++ 58 :: 32 :: (value ++ 10 :: rest))
      = (35 :: 32 :: (key ++ 58 :: 32 :: value)) ++ 10 :: rest := by simp
  rw [hbs]
  have h10 : (10 : Nat) ∉ 35 :: 32 :: (key ++ 58 :: 32 :: value) := by
    intro hm
    simp only [List.mem_cons, List.mem_append] at hm
    rcases hm with h | h | h | h | h | h
    · omega
    · omega
    · exact (hkey.2 10 h).1 rfl
    · omega
    · omega
    · exact (hval.2 10 h).1 rfl
  have h7 : ∀ b ∈ (35 :: 32 :: (key ++ 58 :: 32 :: value)) ++ [10],
      b ≤ 127 := by
    intro b hb
    simp only [List.mem_append, List.mem_cons, List.not_mem_nil, or_false]
      at hb
    rcases hb with (h | h | h | h | h | h) | h
    · omega
    · omega
    · exact hk7 b h
    · omega
    · omega
    · exact hv7 b h
    · omega
  have hutf : (utf8Decode
      ((35 :: 32 :: (key ++ 58 :: 32 :: value)) ++ [10])).isSome = true := by
    rw [utf8Decode_ascii _ h7]
    rfl
  rw [parse_header_line_step fuel _ rest header count h10 hutf ?hl hcount ?hs]
  case hl =>
    simp only [List.length_cons, List.length_append]
    omega
  case hs =>
    rw [show (35 :: 32 :: (key ++ 58 :: 32 :: value)) ++ [10]
        = 35 :: (32 :: (key ++ 58 :: 32 :: value) ++ [10]) by simp]
    exact trim_hash_ne_sep _
  rw [headerLineInsert_hline header key value hkey hval]

theorem ascii_snap_split (X : List Nat) : ascii ("# Snapshot: ") ++ X
    = 35 :: 32 :: (hdrKeySnapshot ++ 58 :: 32 :: X) := by
  have h : ascii ("# Snapshot: ") = 35 :: 32 :: (hdrKeySnapshot ++ [58, 32]) :=
    by decide
  rw [h]; simp

theorem ascii_created_split (X : List Nat) : ascii ("# Created: ") ++ X
    = 35 :: 32 :: (hdrKeyCreated ++ 58 :: 32 :: X) := by
  have h : ascii ("# Created: ") = 35 :: 32 :: (hdrKeyCreated ++ [58, 32]) :=
    by decide
  rw [h]; simp

theorem ascii_updated_split (X : List Nat) : ascii ("# Updated: ") ++ X
    = 35 :: 32 :: (hdrKeyUpdated ++ 58 :: 32 :: X) := by
  have h : ascii ("# Updated: ") = 35 :: 32 :: (hdrKeyUpdated ++ [58, 32]) :=
    by decide
  rw [h]; simp

theorem ascii_hash_split (X : List Nat) : ascii ("# Hash: ") ++ X
    = 35 :: 32 :: (hdrKeyHash ++ 58 :: 32 :: X) := by
  have h : ascii ("# Hash: ") = 35 :: 32 :: (hdrKeyHash ++ [58, 32]) := by decide
  rw [h]; simp

theorem ascii_size_split (X : List Nat) : ascii ("# Size: ") ++ X
    = 35 :: 32 :: (hdrKeySize ++ 58 :: 32 :: X) := by
  have h : ascii ("# Size: ") = 35 :: 32 :: (hdrKeySize ++ [58, 32]) := by decide
  rw [h]; simp

theorem ascii_type_split (X : List Nat) : ascii ("# Type: ") ++ X
    = 35 :: 32 :: (hdrKeyType ++ 58 :: 32 :: X) := by
  have h : ascii ("# Type: ") = 35 :: 32 :: (hdrKeyType ++ [58, 32]) := by decide
  rw [h]; simp

theorem ascii_sep_split (X : List Nat) : ascii ("---") ++ X
    = 45 :: 45 :: 45 :: X := by
  have h : ascii ("---") = [45, 45, 45] := by decide
  rw [h]; simp

theorem envHeader_build (s : Snapshot) :
    hdrInsert (hdrInsert (hdrInsert (hdrInsert (hdrInsert
        (hdrInsert [] hdrKeySnapshot s.metadata.name)
        hdrKeyCreated (natDecimal s.metadata.created_at))
        hdrKeyUpdated (natDecimal s.metadata.updated_at))
        hdrKeyHash s.metadata.content_hash)
        hdrKeySize (natDecimal s.metadata.size))
        hdrKeyType (fileTypeStr s.metadata.file_type)
      = envHeader s := by
  have e1 : hdrInsert [] hdrKeySnapshot s.metadata.name
      = [(hdrKeySnapshot, s.metadata.name)] := by simp [hdrInsert]
  have f2 : ∀ p ∈ [(hdrKeySnapshot, s.metadata.name)],
      p.1 ≠ hdrKeyCreated := by
    intro p hp
    simp only [List.mem_cons, List.not_mem_nil, or_false] at hp
    subst hp
    dsimp only
    decide
  have f3 : ∀ p ∈ [(hdrKeySnapshot, s.metadata.name)]
      ++ [(hdrKeyCreated, natDecimal s.metadata.created_at)],
      p.1 ≠ hdrKeyUpdated := by
    intro p hp
    simp only [List.mem_append, List.mem_cons, List.not_mem_nil, or_false]
      at hp
    rcases hp with rfl | rfl <;> dsimp only <;> decide
  have f4 : ∀ p ∈ ([(hdrKeySnapshot, s.metadata.name)]
      ++ [(hdrKeyCreated, natDecimal s.metadata.created_at)])
      ++ [(hdrKeyUpdated, natDecimal s.metadata.updated_at)],
      p.1 ≠ hdrKeyHash := by
    intro p hp
    simp only [List.mem_append, List.mem_cons, List.not_mem_nil, or_false]
      at hp
    rcases hp with (rfl | rfl) | rfl <;> dsimp only <;> decide
  have f5 : ∀ p ∈ (([(hdrKeySnapshot, s.metadata.name)]
      ++ [(hdrKeyCreated, natDecimal s.metadata.created_at)])
      ++ [(hdrKeyUpdated, natDecimal s.metadata.updated_at)])
      ++ [(hdrKeyHash, s.metadata.content_hash)],
      p.1 ≠ hdrKeySize := by
    intro p hp
    simp only [List.mem_append, List.mem_cons, List.not_mem_nil, or_false]
      at hp
    rcases hp with ((rfl | rfl) | rfl) | rfl <;> dsimp only <;> decide
  have f6 : ∀ p ∈ ((([(hdrKeySnapshot, s.metadata.name)]
      ++ [(hdrKeyCreated, natDecimal s.metadata.created_at)])
      ++ [(hdrKeyUpdated, natDecimal s.metadata.updated_at)])
      ++ [(hdrKeyHash, s.metadata.content_hash)])
      ++ [(hdrKeySize, natDecimal s.metadata.size)],
      p.1 ≠ hdrKeyType := by
    intro p hp
    simp only [List.mem_append, List.mem_cons, List.not_mem_nil, or_false]
      at hp
    rcases hp with (((rfl | rfl) | rfl) | rfl) | rfl <;> dsimp only <;> decide
  rw [e1, hdrInsert_concat _ _ _ f2, hdrInsert_concat _ _ _ f3,
    hdrInsert_concat _ _ _ f4, hdrInsert_concat _ _ _ f5,
    hdrInsert_concat _ _ _ f6]
  simp [envHeader]

theorem parse_header_write (s : Snapshot) (fuel : Nat) (h7 : 7 ≤ fuel)
    (hname : headerTokenOK s.metadata.name)
    (hname7 : ∀ b ∈ s.metadata.name, b ≤ 127)
    (hnlen : s.metadata.name.length ≤ 1011)
    (hhash : headerTokenOK s.metadata.content_hash)
    (hhash7 : ∀ b ∈ s.metadata.content_hash, b ≤ 127)
    (hhlen : s.metadata.content_hash.length ≤ 1015)
    (hc : s.metadata.created_at < 2 ^ 64)
    (hu : s.metadata.updated_at < 2 ^ 64)
    (hsz : s.metadata.size < 2 ^ 64) :
    parse_header fuel (write_snapshot s) [] 0
      = if s.content.length > MAX_CONTENT_SIZE then .error .corruptedSnapshot
        else .ok (envHeader s, s.content) := by
  obtain ⟨f, rfl⟩ : ∃ f, fuel = f + 7 := ⟨fuel - 7, by omega⟩
  have hd7 : ∀ (n : Nat), ∀ b ∈ natDecimal n, b ≤ 127 := by
    intro n b hb
    have := natDecimal_mem n b hb
    omega
  have hMHL : MAX_HEADER_LINE_LENGTH = 1024 := rfl
  have hkS : hdrKeySnapshot.length = 8 := by decide
  have hkC : hdrKeyCreated.length = 7 := by decide
  have hkU : hdrKeyUpdated.length = 7 := by decide
  have hkH : hdrKeyHash.length = 4 := by decide
  have hkZ : hdrKeySize.length = 4 := by decide
  have hkT : hdrKeyType.length = 4 := by decide
  have hdC := natDecimal_length_le _ hc
  have hdU := natDecimal_length_le _ hu
  have hdZ := natDecimal_length_le _ hsz
  have hftl := fileTypeStr_length_le s.metadata.file_type
  unfold write_snapshot
  simp only [List.append_assoc]
  rw [ascii_snap_split, ascii_created_split, ascii_updated_split,
    ascii_hash_split, ascii_size_split, ascii_type_split, ascii_sep_split]
  simp only [List.singleton_append]
  rw [show f + 7 = (f + 6) + 1 from rfl]
  rw [parse_header_hline (f + 6) hdrKeySnapshot s.metadata.name _ _ _
    (by decide) hname (by decide) hname7 (by omega) (by decide)]
  rw [show f + 6 = (f + 5) + 1 from rfl]
  rw [parse_header_hline (f + 5) hdrKeyCreated _ _ _ _
    (by decide) (natDecimal_tokenOK _) (by decide) (hd7 _) (by omega)
    (by decide)]
  rw [show f + 5 = (f + 4) + 1 from rfl]
  rw [parse_header_hline (f + 4) hdrKeyUpdated _ _ _ _
    (by decide) (natDecimal_tokenOK _) (by decide) (hd7 _) (by omega)
    (by decide)]
  rw [show f + 4 = (f + 3) + 1 from rfl]
  rw [parse_header_hline (f + 3) hdrKeyHash _ _ _ _
    (by decide) hhash (by decide) hhash7 (by omega) (by decide)]
  rw [show f + 3 = (f + 2) + 1 from rfl]
  rw [parse_header_hline (f + 2) hdrKeySize _ _ _ _
    (by decide) (natDecimal_tokenOK _) (by decide) (hd7 _) (by omega)
    (by decide)]
  rw [show f + 2 = (f + 1) + 1 from rfl]
  rw [parse_header_hline (f + 1) hdrKeyType _ _ _ _
    (by decide) (fileTypeStr_tokenOK _) (by decide) (fileTypeStr_ascii _)
    (by omega) (by decide)]
  rw [parse_header_sep f s.content _ _]
  rw [if_neg (by decide)]
  rw [envHeader_build s]

theorem hdrGet_env_snapshot (s : Snapshot) :
    hdrGet (envHeader s) hdrKeySnapshot = some s.metadata.name := by
  have t1 : (hdrKeySnapshot == hdrKeySnapshot) = true := by decide
  simp [hdrGet, envHeader, List.find?_cons, t1]

theorem hdrGet_env_created (s : Snapshot) :
    hdrGet (envHeader s) hdrKeyCreated
      = some (natDecimal s.metadata.created_at) := by
  have f1 : (hdrKeySnapshot == hdrKeyCreated) = false := by decide
  have t2 : (hdrKeyCreated == hdrKeyCreated) = true := by decide
  simp [hdrGet, envHeader, List.find?_cons, f1, t2]

theorem hdrGet_env_updated (s : Snapshot) :
    hdrGet (envHeader s) hdrKeyUpdated
      = some (natDecimal s.metadata.updated_at) := by
  have f1 : (hdrKeySnapshot == hdrKeyUpdated) = false := by decide
  have f2 : (hdrKeyCreated == hdrKeyUpdated) = false := by decide
  have t3 : (hdrKeyUpdated == hdrKeyUpdated) = true := by decide
  simp [hdrGet, envHeader, List.find?_cons, f1, f2, t3]

theorem hdrGet_env_hash (s : Snapshot) :
    hdrGet (envHeader s) hdrKeyHash = some s.metadata.content_hash := by
  have f1 : (hdrKeySnapshot == hdrKeyHash) = false := by decide
  have f2 : (hdrKeyCreated == hdrKeyHash) = false := by decide
  have f3 : (hdrKeyUpdated == hdrKeyHash) = false := by decide
  have t4 : (hdrKeyHash == hdrKeyHash) = true := by decide
  simp [hdrGet, envHeader, List.find?_cons, f1, f2, f3, t4]

theorem hdrGet_env_size (s : Snapshot) :
    hdrGet (envHeader s) hdrKeySize = some (natDecimal s.metadata.size) := by
  have f1 : (hdrKeySnapshot == hdrKeySize) = false := by decide
  have f2 : (hdrKeyCreated == hdrKeySize) = false := by decide
  have f3 : (hdrKeyUpdated == hdrKeySize) = false := by decide
  have f4 : (hdrKeyHash == hdrKeySize) = false := by decide
  have t5 : (hdrKeySize == hdrKeySize) = true := by decide
  simp [hdrGet, envHeader, List.find?_cons, f1, f2, f3, f4, t5]

theorem hdrGet_env_type (s : Snapshot) :
    hdrGet (envHeader s) hdrKeyType
      = some (fileTypeStr s.metadata.file_type) := by
  have f1 : (hdrKeySnapshot == hdrKeyType) = false := by decide
  have f2 : (hdrKeyCreated == hdrKeyType) = false := by decide
  have f3 : (hdrKeyUpdated == hdrKeyType) = false := by decide
  have f4 : (hdrKeyHash == hdrKeyType) = false := by decide
  have f5 : (hdrKeySize == hdrKeyType) = false := by decide
  have t6 : (hdrKeyType == hdrKeyType) = true := by decide
  simp [hdrGet, envHeader, List.find?_cons, f1, f2, f3, f4, f5, t6]

theorem read_write_roundtrip (store : Store) (s : Snapshot)
    (hv : validate_name s.metadata.name = .ok ())
    (hnlen : s.metadata.name.length ≤ 1011)
    (hc : s.metadata.created_at < 2 ^ 64)
    (hu : s.metadata.updated_at < 2 ^ 64)
    (hsz : s.metadata.size < 2 ^ 64)
    (hhash : s.metadata.content_hash = compute_hash s.content)
    (hcl : s.content.length ≤ MAX_CONTENT_SIZE) :
    SnapshotStore.read (storeInsert store s.metadata.name (write_snapshot s))
        s.metadata.name = .ok s := by
  have hname := validate_name_tokenOK _ hv
  have hname7 : ∀ b ∈ s.metadata.name, b ≤ 127 := by
    obtain ⟨hne, hall⟩ := validate_name_ok_facts _ hv
    intro b hb
    exact isNameByte_le b (List.all_eq_true.mp hall b hb)
  have hhtok : headerTokenOK s.metadata.content_hash := by
    rw [hhash]; exact compute_hash_tokenOK _
  have hhash7 : ∀ b ∈ s.metadata.content_hash, b ≤ 127 := by
    intro b hb
    rw [hhash] at hb
    have := compute_hash_mem _ b hb
    omega
  have hhlen : s.metadata.content_hash.length ≤ 1015 := by
    rw [hhash, compute_hash_length]; omega
  have h7 : 7 ≤ (write_snapshot s).length + 1 := by
    have := write_snapshot_length_ge s
    omega
  have hparse := parse_header_write s ((write_snapshot s).length + 1) h7
    hname hname7 hnlen hhtok hhash7 hhlen hc hu hsz
  rw [if_neg (by omega)] at hparse
  simp only [SnapshotStore.read, hv, storeLookup_insert, hparse]
  rw [hdrGet_env_snapshot, hdrGet_env_created, hdrGet_env_updated,
    hdrGet_env_hash, hdrGet_env_size, hdrGet_env_type]
  simp only [Option.getD_some, Option.some_bind, Option.map_some]
  rw [parseU64_natDecimal _ hc, parseU64_natDecimal _ hu,
    parseU64_natDecimal _ hsz]
  simp [parseTypeValue_fileTypeStr]

theorem read_parse_error (store : Store) (name file : List Nat)
    (e : SnapshotError)
    (hv : validate_name name = .ok ())
    (hlk : storeLookup store name = some file)
    (hp : parse_header (file.length + 1) file [] 0 = .error e) :
    SnapshotStore.read store name = .error e := by
  simp only [SnapshotStore.read, hv, hlk, hp]

theorem check_read_error (ord : List (List Nat) → List (List Nat))
    (store : Store) (name actual : List Nat) (config : SnapshotConfig)
    (now : Nat) (e : SnapshotError)
    (h : SnapshotStore.read store name = .error e) :
    check ord store name actual config now = .error e := by
  unfold check
  rw [h]

-- ===========================================================================
-- C3: write/read round trip
-- ===========================================================================

/-- **C3** (corrected): writing a snapshot with `write_snapshot` and reading
the file back with `SnapshotStore.read` yields an equal snapshot — every
metadata field and the content — for every snapshot whose name is valid and
at most 1011 bytes, whose numeric fields fit in `u64` (as the Rust types
guarantee), whose stored hash is the FNV-1a digest of the content (as
`create` and `update` produce), and whose content is at most
`MAX_CONTENT_SIZE` bytes.  The name-length and content-size restrictions
are forced corrections: outside them the reader rejects the very envelope
`create` just wrote (see the counterexample). -/
theorem C3_write_read_roundtrip (store : Store) (s : Snapshot)
    (hv : validate_name s.metadata.name = .ok ())
    (hnlen : s.metadata.name.length ≤ 1011)
    (hc : s.metadata.created_at < 2 ^ 64)
    (hu : s.metadata.updated_at < 2 ^ 64)
    (hsz : s.metadata.size < 2 ^ 64)
    (hhash : s.metadata.content_hash = compute_hash s.content)
    (hcl : s.content.length ≤ MAX_CONTENT_SIZE) :
    SnapshotStore.read (storeInsert store s.metadata.name (write_snapshot s))
        s.metadata.name = .ok s :=
  read_write_roundtrip store s hv hnlen hc hu hsz hhash hcl

set_option maxRecDepth 10000 in
/-- **C3** counterexample: a 1012-character name passes validation and
`create` succeeds, but its `# Snapshot:` header line is 1025 bytes, so
reading back the snapshot that was just written fails with
`CorruptedSnapshot` — the round trip of the claim does not hold for every
snapshot `create` produces. -/
theorem C3_counterexample :
    create [] c3name [] SnapshotConfig.default 0
        = .ok (c3snap, storeInsert [] c3name (write_snapshot c3snap)) ∧
    SnapshotStore.read (storeInsert [] c3name (write_snapshot c3snap)) c3name
      = .error .corruptedSnapshot := by
  have hv : validate_name c3name = .ok () := by decide
  constructor
  · have hcr : ∀ (nm : List Nat), validate_name nm = .ok () →
        create [] nm [] SnapshotConfig.default 0
          = .ok ((
            { metadata :=
                { name := nm, created_at := 0, updated_at := 0,
                  content_hash := compute_hash [], size := 0,
                  file_type := detect_file_type [] none }
              content := [] } : Snapshot),
            storeInsert [] nm (write_snapshot
            { metadata :=
                { name := nm, created_at := 0, updated_at := 0,
                  content_hash := compute_hash [], size := 0,
                  file_type := detect_file_type [] none }
              content := [] })) := by
      intro nm hnm
      unfold create
      rw [hnm]
      rfl
    rw [hcr c3name hv]
    rfl
  · have hshape : write_snapshot c3snap
        = (ascii ("# Snapshot: ") ++ c3name) ++ 10 ::
          (ascii ("# Created: ") ++ natDecimal 0 ++ [10] ++
           ascii ("# Updated: ") ++ natDecimal 0 ++ [10] ++
           ascii ("# Hash: ") ++ compute_hash [] ++ [10] ++
           ascii ("# Size: ") ++ natDecimal 0 ++ [10] ++
           ascii ("# Type: ") ++ fileTypeStr (detect_file_type [] none) ++
           [10] ++ ascii ("---") ++ [10]) := by
      unfold write_snapshot c3snap
      simp [List.append_assoc]
    have h10 : (10 : Nat) ∉ ascii ("# Snapshot: ") ++ c3name := by
      intro hm
      rcases List.mem_append.1 hm with h | h
      · exact absurd h (by decide)
      · rw [c3name] at h
        have := List.eq_of_mem_replicate h
        omega
    have h7a : ∀ b ∈ (ascii ("# Snapshot: ") ++ c3name) ++ [10],
        b ≤ 127 := by
      intro b hb
      rcases List.mem_append.1 hb with h | h
      · rcases List.mem_append.1 h with h2 | h2
        · exact (by decide : ∀ x ∈ ascii ("# Snapshot: "), x ≤ 127) b h2
        · rw [c3name] at h2
          have := List.eq_of_mem_replicate h2
          omega
      · simp at h
        omega
    have hutf : (utf8Decode
        ((ascii ("# Snapshot: ") ++ c3name) ++ [10])).isSome = true := by
      rw [utf8Decode_ascii _ h7a]
      rfl
    have hlen : (ascii ("# Snapshot: ") ++ c3name).length + 1
        > MAX_HEADER_LINE_LENGTH := by
      have h12 : (ascii ("# Snapshot: ")).length = 12 := by decide
      have hM : MAX_HEADER_LINE_LENGTH = 1024 := rfl
      simp only [List.length_append, h12, c3name, List.length_replicate]
      omega
    refine read_parse_error _ c3name (write_snapshot c3snap) _ hv
      (storeLookup_insert [] c3name (write_snapshot c3snap)) ?_
    rw [hshape]
    exact parse_header_line_long _ _ _ _ _ h10 hutf hlen

/-- **C3** witness: the round trip at a small concrete snapshot. -/
theorem C3_write_read_roundtrip_witness :
    SnapshotStore.read (storeInsert [] [116] (write_snapshot
        { metadata :=
            { name := [116], created_at := 1, updated_at := 2,
              content_hash := compute_hash [104, 105], size := 2,
              file_type := FileType.Text }
          content := [104, 105] })) [116]
      = .ok
        { metadata :=
            { name := [116], created_at := 1, updated_at := 2,
              content_hash := compute_hash [104, 105], size := 2,
              file_type := FileType.Text }
          content := [104, 105] } := by
  refine C3_write_read_roundtrip []
    { metadata :=
        { name := [116], created_at := 1, updated_at := 2,
          content_hash := compute_hash [104, 105], size := 2,
          file_type := FileType.Text }
      content := [104, 105] } ?_ ?_ ?_ ?_ ?_ ?_ ?_ <;> decide

-- ===========================================================================
-- C10: update with no stored snapshot
-- ===========================================================================

/-- **C10** (confirmed): for every valid name with no snapshot stored under
it, `update` does not fail with `NotFound`: it succeeds, writes the
snapshot, and the result has `created_at = updated_at = now` and
`content_hash` equal to the FNV-1a digest of the content. -/
theorem C10_update_absent (store : Store) (name content : List Nat)
    (config : SnapshotConfig) (now : Nat)
    (hv : validate_name name = .ok ()) (habs : storeLookup store name = none) :
    ∃ snap store', update store name content config now = .ok (snap, store')
      ∧ snap.metadata.created_at = now ∧ snap.metadata.updated_at = now
      ∧ snap.metadata.content_hash = compute_hash content
      ∧ store' = storeInsert store name (write_snapshot snap) := by
  unfold update
  rw [hv, habs]
  exact ⟨_, _, rfl, rfl, rfl, rfl, rfl⟩

/-- **C10** witness: updating an empty store at name `"t"`. -/
theorem C10_update_absent_witness :
    ∃ snap store',
      update [] [116] [97] SnapshotConfig.default 7 = .ok (snap, store')
      ∧ snap.metadata.created_at = 7 ∧ snap.metadata.updated_at = 7
      ∧ snap.metadata.content_hash = compute_hash [97]
      ∧ store' = storeInsert [] [116] (write_snapshot snap) :=
  C10_update_absent [] [116] [97] SnapshotConfig.default 7 (by decide)
    (by decide)

-- ===========================================================================
-- C2: create then check on identical bytes
-- ===========================================================================

/-- **C2** (corrected): whenever `create` succeeds, `check` on the identical
bytes reports `Match` through the hash fast path, without running any
differ — provided (beyond the claim's wording) that the name is at most
1011 bytes and the content at most `MAX_CONTENT_SIZE` bytes, so that
`check` can read back the envelope `create` just wrote; `now` is a `u64`
Unix time as in Rust.  Without the size restrictions `check` fails with
`CorruptedSnapshot` on the snapshot `create` made (see the
counterexample). -/
theorem C2_create_then_check_match
    (ord : List (List Nat) → List (List Nat)) (store : Store)
    (name content : List Nat) (config : SnapshotConfig) (now now2 : Nat)
    (snapshot : Snapshot) (store' : Store)
    (hcreate : create store name content config now = .ok (snapshot, store'))
    (hn : name.length ≤ 1011) (hcl : content.length ≤ MAX_CONTENT_SIZE)
    (hnow : now < 2 ^ 64) :
    check ord store' name content config now2 = .ok (.Match, store') := by
  cases hvn : validate_name name with
  | error e =>
    unfold create at hcreate
    rw [hvn] at hcreate
    simp at hcreate
  | ok u =>
    unfold create at hcreate
    rw [hvn] at hcreate
    simp only [Except.ok.injEq, Prod.mk.injEq] at hcreate
    obtain ⟨hsnap, hstore⟩ := hcreate
    subst hstore
    subst hsnap
    have hvok : validate_name name = .ok () := hvn
    have hM : MAX_CONTENT_SIZE = 104857600 := rfl
    have hsz : content.length < 2 ^ 64 := by
      rw [hM] at hcl
      omega
    have hread : SnapshotStore.read (storeInsert store name (write_snapshot
        { metadata :=
            { name := name, created_at := now, updated_at := now,
              content_hash := compute_hash content, size := content.length,
              file_type := config.file_type.getD
                (detect_file_type content none) }
          content := content })) name
        = .ok
          { metadata :=
              { name := name, created_at := now, updated_at := now,
                content_hash := compute_hash content, size := content.length,
                file_type := config.file_type.getD
                  (detect_file_type content none) }
            content := content } :=
      read_write_roundtrip store
        { metadata :=
            { name := name, created_at := now, updated_at := now,
              content_hash := compute_hash content, size := content.length,
              file_type := config.file_type.getD
                (detect_file_type content none) }
          content := content } hvok hn hnow hnow hsz rfl hcl
    simp only [check, hread]
    rw [if_pos trivial]

/-- **C2** counterexample: `create` succeeds on a content one byte over
`MAX_CONTENT_SIZE`, but `check` on the identical bytes then fails with
`CorruptedSnapshot` instead of returning `Match`, because reading the
snapshot back trips the content-size reader limit. -/
theorem C2_counterexample :
    create [] [116] c2bigContent SnapshotConfig.default 0
        = .ok (c2bigSnap, storeInsert [] [116] (write_snapshot c2bigSnap)) ∧
    check (fun l => l) (storeInsert [] [116] (write_snapshot c2bigSnap)) [116]
        c2bigContent SnapshotConfig.default 0 = .error .corruptedSnapshot := by
  have hv : validate_name [116] = .ok () := by decide
  constructor
  · have hcr : ∀ (c : List Nat), create [] [116] c SnapshotConfig.default 0
        = .ok ((
          { metadata :=
              { name := [116], created_at := 0, updated_at := 0,
                content_hash := compute_hash c, size := c.length,
                file_type := detect_file_type c none }
            content := c } : Snapshot),
          storeInsert [] [116] (write_snapshot
          { metadata :=
              { name := [116], created_at := 0, updated_at := 0,
                content_hash := compute_hash c, size := c.length,
                file_type := detect_file_type c none }
            content := c })) := by
      intro c
      unfold create
      rw [hv]
      rfl
    rw [hcr c2bigContent]
    rfl
  · have hlen : c2bigContent.length = MAX_CONTENT_SIZE + 1 := by
      simp [c2bigContent]
    have h7 : 7 ≤ (write_snapshot c2bigSnap).length + 1 := by
      have := write_snapshot_length_ge c2bigSnap
      omega
    have hhlen16 : (compute_hash c2bigContent).length ≤ 1015 := by
      rw [compute_hash_length]
      omega
    have hszb : c2bigSnap.metadata.size < 2 ^ 64 := by
      show c2bigContent.length < 2 ^ 64
      rw [hlen]
      decide
    have hhash7 : ∀ b ∈ c2bigSnap.metadata.content_hash, b ≤ 127 := by
      intro b hb
      have := compute_hash_mem c2bigContent b hb
      omega
    have hparse := parse_header_write c2bigSnap
      ((write_snapshot c2bigSnap).length + 1) h7 (by decide) (by decide)
      (by decide) (compute_hash_tokenOK c2bigContent) hhash7 hhlen16
      (by decide) (by decide) hszb
    have hgt : c2bigSnap.content.length > MAX_CONTENT_SIZE := by
      show c2bigContent.length > MAX_CONTENT_SIZE
      rw [hlen]
      omega
    rw [if_pos hgt] at hparse
    have hread : SnapshotStore.read
        (storeInsert [] [116] (write_snapshot c2bigSnap)) [116]
        = .error .corruptedSnapshot :=
      read_parse_error _ [116] (write_snapshot c2bigSnap) _ hv
        (storeLookup_insert [] [116] (write_snapshot c2bigSnap)) hparse
    exact check_read_error _ _ _ _ _ _ _ hread

/-- **C2** witness: create then check at name `"t"`, content `"a"`. -/
theorem C2_create_then_check_match_witness :
    check (fun l => l) [([116], write_snapshot c2wSnap)] [116] [97]
        SnapshotConfig.default 5
      = .ok (.Match, [([116], write_snapshot c2wSnap)]) :=
  C2_create_then_check_match (fun l => l) [] [116] [97]
    SnapshotConfig.default 0 5 c2wSnap [([116], write_snapshot c2wSnap)]
    (by decide) (by decide) (by decide) (by decide)

-- ===========================================================================
-- C4: envelope reader limits
-- ===========================================================================

theorem read_non_utf8_header_ioError :
    SnapshotStore.read [([116], [255, 10, 45, 45, 45, 10])] [116]
      = .error .ioError := by
  decide

